import Mathlib

/-!
Verification of the dynamic borsh schema interpreter (`src/dynamic_schema.rs`),
the schema-less JSON encoder (`src/json_borsh.rs`) and the schema compressor
(`src/compress_schema.rs`) of the `borsh-cli` repository.

The Rust code is shallowly embedded: byte buffers are `List Nat` (every entry
below 256), machine integers are `Nat`/`Int` with explicit `% 2 ^ w` where the
source truncates, fallible code returns `Except`, and the two sources of
runtime panics in the interpreter (`todo!` for unknown declarations and the
unchecked `variants[i]` index) are modelled as dedicated error outcomes.
Recursion that the Rust code performs on arbitrary (possibly cyclic) schema
graphs is made total with an explicit fuel argument; running out of fuel is a
separate outcome (`outOfFuel`) distinct from every behaviour of the source.
-/

namespace BorshCli

/-! ## Bytes and little-endian integers -/

/-- Little-endian interpretation of a byte list: the head is least significant. -/
def leNat : List Nat → Nat
  | [] => 0
  | b :: rest => b + 256 * leNat rest

/-- `n`-byte little-endian encoding of `v % 2 ^ (8 * n)`; models
`x.to_le_bytes()` for the fixed-width integer writes in the source. -/
def natToLe : Nat → Nat → List Nat
  | 0, _ => []
  | n + 1, v => v % 256 :: natToLe n (v / 256)

/-- Split off the first `n` bytes of the buffer, or fail on a short read.
Models the cursor advancing reads at the base of every borsh deserialize. -/
def readN (n : Nat) (bs : List Nat) : Option (List Nat × List Nat) :=
  if n ≤ bs.length then some (bs.take n, bs.drop n) else none

/-- Read a `width`-byte little-endian unsigned integer. -/
def readUIntLe (width : Nat) (bs : List Nat) : Option (Nat × List Nat) :=
  (readN width bs).map (fun p => (leNat p.1, p.2))

/-- Reinterpret a `width`-byte unsigned value as two's-complement signed. -/
def toSigned (width : Nat) (v : Nat) : Int :=
  if v < 2 ^ (8 * width - 1) then (v : Int) else (v : Int) - 2 ^ (8 * width)

/-- Two's-complement `width`-byte little-endian encoding of a signed value. -/
def intToLe (width : Nat) (i : Int) : List Nat :=
  natToLe width (i % (2 ^ (8 * width) : Nat)).toNat

/-! ## UTF-8 (mirrors the checks done by Rust's `str`/`String` conversions) -/

/-- Is `b` a UTF-8 continuation byte? -/
def isCont (b : Nat) : Bool := 0x80 ≤ b && b ≤ 0xBF

/-- Strict UTF-8 decoding of a byte list, with the same rejections as Rust's
`String::from_utf8` (overlong forms, surrogates, values above `U+10FFFF`). -/
def utf8Decode : List Nat → Option (List Char)
  | [] => some []
  | b :: rest =>
    if b < 0x80 then
      (utf8Decode rest).map (fun cs => Char.ofNat b :: cs)
    else if b < 0xC2 then none
    else if b ≤ 0xDF then
      match rest with
      | c1 :: rest' =>
        if isCont c1 then
          (utf8Decode rest').map (fun cs => Char.ofNat ((b - 0xC0) * 64 + (c1 - 0x80)) :: cs)
        else none
      | _ => none
    else if b ≤ 0xEF then
      match rest with
      | c1 :: c2 :: rest' =>
        let okC1 :=
          if b = 0xE0 then 0xA0 ≤ c1 && c1 ≤ 0xBF
          else if b = 0xED then 0x80 ≤ c1 && c1 ≤ 0x9F
          else isCont c1
        if okC1 && isCont c2 then
          (utf8Decode rest').map (fun cs =>
            Char.ofNat ((b - 0xE0) * 4096 + (c1 - 0x80) * 64 + (c2 - 0x80)) :: cs)
        else none
      | _ => none
    else if b ≤ 0xF4 then
      match rest with
      | c1 :: c2 :: c3 :: rest' =>
        let okC1 :=
          if b = 0xF0 then 0x90 ≤ c1 && c1 ≤ 0xBF
          else if b = 0xF4 then 0x80 ≤ c1 && c1 ≤ 0x8F
          else isCont c1
        if okC1 && isCont c2 && isCont c3 then
          (utf8Decode rest').map (fun cs =>
            Char.ofNat ((b - 0xF0) * 262144 + (c1 - 0x80) * 4096 +
              (c2 - 0x80) * 64 + (c3 - 0x80)) :: cs)
        else none
      | _ => none
    else none

/-- UTF-8 encoding of one scalar value. -/
def utf8EncodeChar (c : Char) : List Nat :=
  let n := c.toNat
  if n < 0x80 then [n]
  else if n < 0x800 then [0xC0 + n / 64, 0x80 + n % 64]
  else if n < 0x10000 then [0xE0 + n / 4096, 0x80 + n / 64 % 64, 0x80 + n % 64]
  else [0xF0 + n / 262144, 0x80 + n / 4096 % 64, 0x80 + n / 64 % 64, 0x80 + n % 64]

/-- UTF-8 encoding of a string, as written by borsh's string serializer. -/
def utf8Encode (s : String) : List Nat :=
  (s.data.map utf8EncodeChar).flatten

/-! ## JSON values (the `serde_json::Value` domain)

`serde_json` is configured with insertion-order preserving maps, so an object
is an ordered association list.  `serde_json::Number` is one of an unsigned
64-bit integer, a negative signed 64-bit integer, or a double; the `From`
conversions used by the source normalise non-negative signed values to the
unsigned constructor.  Doubles are carried as their IEEE-754 bit pattern. -/

inductive JNumber where
  | posInt (u : Nat)
  | negInt (i : Int)
  | float (bits : Nat)
  deriving DecidableEq

/-- `serde_json::Number::from(i : i64)`: non-negative values become `PosInt`. -/
def JNumber.ofInt (i : Int) : JNumber :=
  if i < 0 then .negInt i else .posInt i.toNat

inductive Json where
  | null
  | jbool (b : Bool)
  | num (n : JNumber)
  | str (s : String)
  | arr (elems : List Json)
  | obj (entries : List (String × Json))

/-- First-match association-list lookup; models `HashMap::get` /
`serde_json::Map::get`, whose keys are unique in the source. -/
def alookup {α : Type} : List (String × α) → String → Option α
  | [], _ => none
  | (k', v) :: rest, k => if k' = k then some v else alookup rest k

/-- `HashMap::insert`: replace the value at an existing key, else append. -/
def ainsert {α : Type} : List (String × α) → String → α → List (String × α)
  | [], k, v => [(k, v)]
  | (k', v') :: rest, k, v =>
    if k' = k then (k, v) :: rest else (k', v') :: ainsert rest k v

/-- Building a `HashMap` from an insertion sequence (the named-fields decode
loop inserts every decoded field in declared order). -/
def ainsertAll {α : Type} (init : List (String × α)) :
    List (String × α) → List (String × α)
  | [] => init
  | (k, v) :: rest => ainsertAll (ainsert init k v) rest

/-! ## The schema model (`borsh::schema`) -/

/-- A `Declaration` is a type name; the interpreter dispatches on it. -/
abbrev Declaration := String

inductive Fields where
  | namedFields (fs : List (String × Declaration))
  | unnamedFields (ds : List Declaration)
  | empty
  deriving DecidableEq

inductive Definition where
  | array (length : Nat) (elements : Declaration)
  | sequence (elements : Declaration)
  | tuple (elements : List Declaration)
  | enum (variants : List (String × Declaration))
  | struct (fields : Fields)
  deriving DecidableEq

/-- `BorshSchemaContainer`: a root declaration plus a definitions map. -/
structure BorshSchemaContainer where
  declaration : Declaration
  definitions : List (Declaration × Definition)
  deriving DecidableEq

/-- The set of primitive declarations the interpreter special-cases.  These are
the exact `match` arms of `deserialize_declaration_from_schema` /
`serialize_declaration_with_schema` and the skip list of `compress_schema`;
note that `f32` and `f64` do NOT appear anywhere in the source. -/
def isPrim12 (d : Declaration) : Bool :=
  d = "u8" || d = "u16" || d = "u32" || d = "u64" || d = "u128" ||
  d = "i8" || d = "i16" || d = "i32" || d = "i64" || d = "i128" ||
  d = "string" || d = "bool"

/-! ## Schema-driven decoder (`deserialize_declaration_from_schema`)

The Rust function returns `std::io::Result<serde_json::Value>` but also has two
panicking paths, modelled as dedicated errors:
`todo!("Unknown type to deserialize: {declaration}")` becomes `todoUnknown` and
the unchecked `variants[variant_index as usize]` becomes `indexPanic`.
`malformed ty` is the `Error::new(InvalidData, ty)` the source builds from a
failed primitive read.  `outOfFuel` is a modelling artifact marking recursion
depth exhaustion (the Rust recursion has no such bound). -/

inductive DErr where
  | malformed (ty : String)
  | todoUnknown (d : Declaration)
  | indexPanic
  | outOfFuel
  deriving DecidableEq

/-- The `for _ in 0..length` element-decoding loops of the Array and Sequence
arms, generic in the element decoder. -/
def decodeManyF (dec : List Nat → Except DErr (Json × List Nat)) :
    Nat → List Nat → Except DErr (List Json × List Nat)
  | 0, bs => .ok ([], bs)
  | n + 1, bs =>
    match dec bs with
    | .error e => .error e
    | .ok (v, bs1) =>
      match decodeManyF dec n bs1 with
      | .error e => .error e
      | .ok (vs, bs2) => .ok (v :: vs, bs2)

/-- The element loop of the Tuple and UnnamedFields arms. -/
def decodeListF (dec : Declaration → List Nat → Except DErr (Json × List Nat)) :
    List Declaration → List Nat → Except DErr (List Json × List Nat)
  | [], bs => .ok ([], bs)
  | el :: els, bs =>
    match dec el bs with
    | .error e => .error e
    | .ok (v, bs1) =>
      match decodeListF dec els bs1 with
      | .error e => .error e
      | .ok (vs, bs2) => .ok (v :: vs, bs2)

/-- The field loop of the NamedFields arm: decode every field in declared
order, producing the insertion sequence fed into the `HashMap`. -/
def decodeNamedF (dec : Declaration → List Nat → Except DErr (Json × List Nat)) :
    List (String × Declaration) → List Nat →
    Except DErr (List (String × Json) × List Nat)
  | [], bs => .ok ([], bs)
  | (k, vd) :: fs, bs =>
    match dec vd bs with
    | .error e => .error e
    | .ok (v, bs1) =>
      match decodeNamedF dec fs bs1 with
      | .error e => .error e
      | .ok (kvs, bs2) => .ok ((k, v) :: kvs, bs2)

/-- The `Definition` dispatch of the decoder's user-declaration branch
(src/dynamic_schema.rs:55-121), generic in the recursive decoder `dec`. -/
def decodeDefinition (g : List (String × Json) → List (String × Json))
    (dec : Declaration → List Nat → Except DErr (Json × List Nat)) :
    Definition → List Nat → Except DErr (Json × List Nat)
  | .array len el, bs =>
    (decodeManyF (dec el) len bs).map (fun p => (.arr p.1, p.2))
  | .sequence el, bs =>
    match readUIntLe 4 bs with
    | none => .error (.malformed "u32")
    | some (len, bs1) =>
      (decodeManyF (dec el) len bs1).map (fun p => (.arr p.1, p.2))
  | .tuple els, bs =>
    (decodeListF dec els bs).map (fun p => (.arr p.1, p.2))
  | .enum vs, bs =>
    match readUIntLe 1 bs with
    | none => .error (.malformed "u8")
    | some (idx, bs1) =>
      match vs[idx]? with
      | some (name, vd) =>
        (dec vd bs1).map (fun p => (.obj [(name, p.1)], p.2))
      | none => .error .indexPanic
  | .struct (.namedFields nfs), bs =>
    (decodeNamedF dec nfs bs).map
      (fun p => (.obj (g (ainsertAll [] p.1)), p.2))
  | .struct (.unnamedFields els), bs =>
    (decodeListF dec els bs).map (fun p => (.arr p.1, p.2))
  | .struct .empty, bs => .ok (.arr [], bs)

/-- The twelve primitive match arms of `deserialize_declaration_from_schema`
(src/dynamic_schema.rs:15-51); none of them consults the schema, the fuel or
the map order.  The trailing else is unreachable under the `isPrim12` guard
in the caller and mirrors the caller's lookup-miss outcome. -/
def decodePrim (d : Declaration) (bs : List Nat) :
    Except DErr (Json × List Nat) :=
  if d = "u8" then
    match readUIntLe 1 bs with
    | some (v, rest) => .ok (.num (.posInt v), rest)
    | none => .error (.malformed "u8")
  else if d = "u16" then
    match readUIntLe 2 bs with
    | some (v, rest) => .ok (.num (.posInt v), rest)
    | none => .error (.malformed "u16")
  else if d = "u32" then
    match readUIntLe 4 bs with
    | some (v, rest) => .ok (.num (.posInt v), rest)
    | none => .error (.malformed "u32")
  else if d = "u64" then
    match readUIntLe 8 bs with
    | some (v, rest) => .ok (.num (.posInt v), rest)
    | none => .error (.malformed "u64")
  else if d = "u128" then
    match readUIntLe 16 bs with
    | some (v, rest) => .ok (.str (toString v), rest)
    | none => .error (.malformed "u128")
  else if d = "i8" then
    match readUIntLe 1 bs with
    | some (v, rest) => .ok (.num (.ofInt (toSigned 1 v)), rest)
    | none => .error (.malformed "i8")
  else if d = "i16" then
    match readUIntLe 2 bs with
    | some (v, rest) => .ok (.num (.ofInt (toSigned 2 v)), rest)
    | none => .error (.malformed "i16")
  else if d = "i32" then
    match readUIntLe 4 bs with
    | some (v, rest) => .ok (.num (.ofInt (toSigned 4 v)), rest)
    | none => .error (.malformed "i32")
  else if d = "i64" then
    match readUIntLe 8 bs with
    | some (v, rest) => .ok (.num (.ofInt (toSigned 8 v)), rest)
    | none => .error (.malformed "i64")
  else if d = "i128" then
    match readUIntLe 16 bs with
    | some (v, rest) => .ok (.str (toString (toSigned 16 v)), rest)
    | none => .error (.malformed "i128")
  else if d = "string" then
    match readUIntLe 4 bs with
    | some (len, bs1) =>
      match readN len bs1 with
      | some (body, rest) =>
        match utf8Decode body with
        | some cs => .ok (.str ⟨cs⟩, rest)
        | none => .error (.malformed "string")
      | none => .error (.malformed "string")
    | none => .error (.malformed "string")
  else if d = "bool" then
    match readN 1 bs with
    | some (b, rest) =>
      if b = [0] then .ok (.jbool false, rest)
      else if b = [1] then .ok (.jbool true, rest)
      else .error (.malformed "bool")
    | none => .error (.malformed "bool")
  else
    -- Unreachable when guarded by `isPrim12`; matches the function below.
    .error (.todoUnknown d)

/-- One dispatch step of the decoder: the primitive arms, then the
user-declaration branch (definitions lookup, `todo!` on a miss, `Definition`
dispatch on a hit).  `rec?` is the decoder for the recursive calls; `none`
marks an exhausted fuel budget at the point where the source would recurse. -/
def deserStep (g : List (String × Json) → List (String × Json))
    (schema : BorshSchemaContainer)
    (rec? : Option (Declaration → List Nat → Except DErr (Json × List Nat)))
    (d : Declaration) (bs : List Nat) : Except DErr (Json × List Nat) :=
  if isPrim12 d then decodePrim d bs
  else
    match alookup schema.definitions d with
    | none => .error (.todoUnknown d)
    | some defn =>
      match rec? with
      | none => .error .outOfFuel
      | some dec => decodeDefinition g dec defn bs

/-- `deserialize_declaration_from_schema` (src/dynamic_schema.rs:10-128): the
fuel-indexed iteration of `deserStep` (explicit `Nat.rec` so that unfolding
one step is definitional).

`g` models the unspecified iteration order of the `std::collections::HashMap`
through which the NamedFields arm funnels its output object: the source
accumulates the decoded fields into a fresh `HashMap` and then converts it
with `serde_json::to_value`, so the emitted key order is whatever order that
map yields; faithful instantiations of `g` are exactly the
permutation-producing functions.  Everything else is deterministic and
`g`-independent. -/
def deserialize_declaration_from_schema
    (g : List (String × Json) → List (String × Json))
    (schema : BorshSchemaContainer) :
    Nat → Declaration → List Nat → Except DErr (Json × List Nat) :=
  fun fuel =>
  Nat.rec (motive := fun _ => Declaration → List Nat → Except DErr (Json × List Nat))
    (deserStep g schema none)
    (fun _ ih => deserStep g schema (some ih))
    fuel

/-- `deserialize_from_schema` (src/dynamic_schema.rs:130-135). -/
def deserialize_from_schema (g : List (String × Json) → List (String × Json))
    (schema : BorshSchemaContainer) (fuel : Nat) (bs : List Nat) :
    Except DErr (Json × List Nat) :=
  deserialize_declaration_from_schema g schema fuel schema.declaration bs

/-! ## JSON accessors (`serde_json::Value` / `Number` methods) -/

/-- `Number::as_u64`: only the unsigned constructor yields a value. -/
def JNumber.asU64 : JNumber → Option Nat
  | .posInt u => some u
  | _ => none

/-- `Number::as_i64`: unsigned values must fit `i64::MAX`; negative values
pass through; floats yield nothing. -/
def JNumber.asI64 : JNumber → Option Int
  | .posInt u => if u ≤ 2 ^ 63 - 1 then some (u : Int) else none
  | .negInt i => some i
  | .float _ => none

/-- `Value::as_u64`. -/
def Json.asU64 : Json → Option Nat
  | .num n => n.asU64
  | _ => none

/-- `Value::as_i64`. -/
def Json.asI64 : Json → Option Int
  | .num n => n.asI64
  | _ => none

/-- `Value::as_str`. -/
def Json.asStr : Json → Option String
  | .str s => some s
  | _ => none

/-- `Value::as_bool`. -/
def Json.asBool : Json → Option Bool
  | .jbool b => some b
  | _ => none

/-- `Value::as_array`. -/
def Json.asArray : Json → Option (List Json)
  | .arr xs => some xs
  | _ => none

/-- `Value::as_object`. -/
def Json.asObject : Json → Option (List (String × Json))
  | .obj kvs => some kvs
  | _ => none

/-! ## Decimal integer parsing (`str::parse::<u128>` / `::<i128>`) -/

/-- Decimal digit run; fails on an empty run or any non-digit. -/
def parseDigits : List Char → Option Nat
  | [] => none
  | cs => go cs 0
where
  go : List Char → Nat → Option Nat
    | [], acc => some acc
    | c :: rest, acc =>
      if '0' ≤ c ∧ c ≤ '9' then go rest (acc * 10 + (c.toNat - '0'.toNat))
      else none

/-- `str::parse::<u128>`: optional `+` sign, digits, range check. -/
def parseU128 (s : String) : Option Nat :=
  let cs := match s.data with
    | '+' :: rest => rest
    | l => l
  match parseDigits cs with
  | some v => if v < 2 ^ 128 then some v else none
  | none => none

/-- `str::parse::<i128>`: optional sign, digits, range check. -/
def parseI128 (s : String) : Option Int :=
  match s.data with
  | '-' :: rest =>
    match parseDigits rest with
    | some v => if v ≤ 2 ^ 127 then some (-(v : Int)) else none
    | none => none
  | '+' :: rest =>
    match parseDigits rest with
    | some v => if v < 2 ^ 127 then some (v : Int) else none
    | none => none
  | l =>
    match parseDigits l with
    | some v => if v < 2 ^ 127 then some (v : Int) else none
    | none => none

/-! ## Schema-driven encoder (`serialize_declaration_with_schema`) -/

/-- `ExpectationError` (src/dynamic_schema.rs:137-151). -/
inductive ExpKind where
  | number
  | string
  | boolean
  | array
  | arrayOfLength (n : Nat)
  | object
  deriving DecidableEq

/-- Encoder failures.  `expectation` is `ExpectationError`; `tryFromInt` is a
failed `u8/u16/u32/i8/i16/i32::try_from`; `parseInt` a failed `str::parse`;
`variantNotFound`/`missingProperty` are the two `anyhow!` errors;
`todoUnknown` is the `todo!("Unknown declaration to serialize: …")` panic;
`outOfFuel` is the modelling artifact for unbounded recursion. -/
inductive SErr where
  | expectation (k : ExpKind)
  | tryFromInt
  | parseInt
  | variantNotFound (name : String)
  | missingProperty (key : String)
  | todoUnknown (d : Declaration)
  | outOfFuel
  deriving DecidableEq

/-- Element loop of the Array/Sequence encode arms (bytes are concatenated in
element order, as successive `writer` appends). -/
def serializeSeqF (ser : Json → Except SErr (List Nat)) :
    List Json → Except SErr (List Nat)
  | [] => .ok []
  | v :: vs =>
    match ser v with
    | .error e => .error e
    | .ok b =>
      match serializeSeqF ser vs with
      | .error e => .error e
      | .ok r => .ok (b ++ r)

/-- `elements.iter().zip(array)` loops of the Tuple/UnnamedFields arms. -/
def serializeZipF (ser : Json → Declaration → Except SErr (List Nat)) :
    List Declaration → List Json → Except SErr (List Nat)
  | [], _ => .ok []
  | _ :: _, [] => .ok []
  | dd :: ds, v :: vs =>
    match ser v dd with
    | .error e => .error e
    | .ok b =>
      match serializeZipF ser ds vs with
      | .error e => .error e
      | .ok r => .ok (b ++ r)

/-- Field loop of the NamedFields encode arm: declared order, keyed lookup,
missing key is an error, extra keys are never looked at. -/
def serializeNamedF (ser : Json → Declaration → Except SErr (List Nat))
    (object : List (String × Json)) :
    List (String × Declaration) → Except SErr (List Nat)
  | [] => .ok []
  | (key, vd) :: fs =>
    match alookup object key with
    | none => .error (.missingProperty key)
    | some pv =>
      match ser pv vd with
      | .error e => .error e
      | .ok b =>
        match serializeNamedF ser object fs with
        | .error e => .error e
        | .ok r => .ok (b ++ r)

/-- `variants.iter().enumerate().find_map(..)`: first variant with a matching
name, together with its zero-based position. -/
def findVariant : List (String × Declaration) → String → Nat →
    Option (Nat × Declaration)
  | [], _, _ => none
  | (k, v) :: rest, name, i =>
    if k = name then some (i, v) else findVariant rest name (i + 1)

/-- The `Definition` dispatch of the encoder's user-declaration branch
(src/dynamic_schema.rs:254-372), generic in the recursive encoder `ser`. -/
def serializeDefinition (ser : Json → Declaration → Except SErr (List Nat)) :
    Definition → Json → Except SErr (List Nat)
  | .array len el, value =>
    match value.asArray with
    | none => .error (.expectation .array)
    | some a =>
      if a.length ≠ len then .error (.expectation (.arrayOfLength len))
      else serializeSeqF (fun v => ser v el) a
  | .sequence el, value =>
    match value.asArray with
    | none => .error (.expectation .array)
    | some a =>
      match serializeSeqF (fun v => ser v el) a with
      | .error e => .error e
      | .ok body => .ok (natToLe 4 (a.length % 2 ^ 32) ++ body)
  | .tuple els, value =>
    match value.asArray with
    | none => .error (.expectation .array)
    | some a =>
      if a.length ≠ els.length then
        .error (.expectation (.arrayOfLength (els.length % 2 ^ 32)))
      else serializeZipF ser els a
  | .enum vs, value =>
    let extracted : Option (String × Option Json) :=
      match value with
      | .obj kvs =>
        match kvs with
        | [] => none
        | (k, _) :: _ => some (k, alookup kvs k)
      | .str s => some (s, none)
      | _ => none
    match extracted with
    | none => .error (.expectation .object)
    | some (inputVariant, variantValues) =>
      match findVariant vs inputVariant 0 with
      | none => .error (.variantNotFound inputVariant)
      | some (i, vd) =>
        match ser (variantValues.getD (.obj [])) vd with
        | .error e => .error e
        | .ok body => .ok (i % 256 :: body)
  | .struct (.namedFields nfs), value =>
    match value.asObject with
    | none => .error (.expectation .object)
    | some o => serializeNamedF ser o nfs
  | .struct (.unnamedFields fds), value =>
    match fds with
    | [fd] => ser value fd
    | _ =>
      match value.asArray with
      | none => .error (.expectation .array)
      | some a =>
        if a.length ≠ fds.length then
          .error (.expectation (.arrayOfLength (fds.length % 2 ^ 32)))
        else serializeZipF ser fds a
  | .struct .empty, _ => .ok []

/-- The twelve primitive match arms of `serialize_declaration_with_schema`
(src/dynamic_schema.rs:168-251).  Note the `i64` arm really calls
`value.as_u64()` in the source, and there are no `f32`/`f64` arms.  The
trailing else is unreachable under the `isPrim12` guard in the caller and
mirrors the caller's lookup-miss outcome. -/
def serializePrim (value : Json) (d : Declaration) : Except SErr (List Nat) :=
  if d = "u8" then
    match value.asU64 with
    | none => .error (.expectation .number)
    | some u => if u < 2 ^ 8 then .ok (natToLe 1 u) else .error .tryFromInt
  else if d = "u16" then
    match value.asU64 with
    | none => .error (.expectation .number)
    | some u => if u < 2 ^ 16 then .ok (natToLe 2 u) else .error .tryFromInt
  else if d = "u32" then
    match value.asU64 with
    | none => .error (.expectation .number)
    | some u => if u < 2 ^ 32 then .ok (natToLe 4 u) else .error .tryFromInt
  else if d = "u64" then
    match value.asU64 with
    | none => .error (.expectation .number)
    | some u => .ok (natToLe 8 u)
  else if d = "u128" then
    match value.asStr with
    | none => .error (.expectation .string)
    | some s =>
      match parseU128 s with
      | none => .error .parseInt
      | some v => .ok (natToLe 16 v)
  else if d = "i8" then
    match value.asI64 with
    | none => .error (.expectation .number)
    | some i =>
      if -(2 ^ 7) ≤ i ∧ i < 2 ^ 7 then .ok (intToLe 1 i) else .error .tryFromInt
  else if d = "i16" then
    match value.asI64 with
    | none => .error (.expectation .number)
    | some i =>
      if -(2 ^ 15) ≤ i ∧ i < 2 ^ 15 then .ok (intToLe 2 i) else .error .tryFromInt
  else if d = "i32" then
    match value.asI64 with
    | none => .error (.expectation .number)
    | some i =>
      if -(2 ^ 31) ≤ i ∧ i < 2 ^ 31 then .ok (intToLe 4 i) else .error .tryFromInt
  else if d = "i64" then
    match value.asU64 with
    | none => .error (.expectation .number)
    | some u => .ok (natToLe 8 u)
  else if d = "i128" then
    match value.asStr with
    | none => .error (.expectation .string)
    | some s =>
      match parseI128 s with
      | none => .error .parseInt
      | some v => .ok (intToLe 16 v)
  else if d = "string" then
    match value.asStr with
    | none => .error (.expectation .string)
    | some s => .ok (natToLe 4 ((utf8Encode s).length % 2 ^ 32) ++ utf8Encode s)
  else if d = "bool" then
    match value.asBool with
    | none => .error (.expectation .boolean)
    | some b => .ok [if b then 1 else 0]
  else
    -- Unreachable when guarded by `isPrim12`; matches the function below.
    .error (.todoUnknown d)

/-- One dispatch step of the encoder, mirroring `deserStep`. -/
def serStep (schema : BorshSchemaContainer)
    (rec? : Option (Json → Declaration → Except SErr (List Nat)))
    (value : Json) (d : Declaration) : Except SErr (List Nat) :=
  if isPrim12 d then serializePrim value d
  else
    match alookup schema.definitions d with
    | none => .error (.todoUnknown d)
    | some defn =>
      match rec? with
      | none => .error .outOfFuel
      | some ser => serializeDefinition ser defn value

/-- `serialize_declaration_with_schema` (src/dynamic_schema.rs:161-379): the
fuel-indexed iteration of `serStep`.  Returns the bytes appended to the
writer. -/
def serialize_declaration_with_schema (schema : BorshSchemaContainer) :
    Nat → Json → Declaration → Except SErr (List Nat) :=
  fun fuel =>
  Nat.rec (motive := fun _ => Json → Declaration → Except SErr (List Nat))
    (serStep schema none)
    (fun _ ih => serStep schema (some ih))
    fuel

/-- `serialize_with_schema` (src/dynamic_schema.rs:153-159). -/
def serialize_with_schema (schema : BorshSchemaContainer) (fuel : Nat)
    (value : Json) : Except SErr (List Nat) :=
  serialize_declaration_with_schema schema fuel value schema.declaration

/-! ## IEEE-754 binary64 and the schema-less encoder (`json_borsh.rs`) -/

/-- Largest `e ≤ bound` with `2 ^ e ≤ n` (0 for `n = 0`); a fuel-bounded floor
log2 that evaluates by kernel reduction. -/
def floorLog2Aux : Nat → Nat → Nat
  | 0, _ => 0
  | e + 1, n => if 2 ^ (e + 1) ≤ n then e + 1 else floorLog2Aux e n

/-- Bit pattern of the IEEE-754 binary64 nearest (ties-to-even) value of a
natural number below `2 ^ 64`; models Rust's `u as f64` cast for `u : u64`
(which can never overflow to infinity). -/
def natToF64bits (n : Nat) : Nat :=
  if n = 0 then 0
  else
    let e := floorLog2Aux 63 n
    if e ≤ 52 then (1023 + e) * 2 ^ 52 + (n * 2 ^ (52 - e) - 2 ^ 52)
    else
      let shift := e - 52
      let q := n / 2 ^ shift
      let r := n % 2 ^ shift
      let q' := if r * 2 > 2 ^ shift ∨ (r * 2 = 2 ^ shift ∧ q % 2 = 1) then q + 1 else q
      if q' = 2 ^ 53 then (1024 + e) * 2 ^ 52
      else (1023 + e) * 2 ^ 52 + (q' - 2 ^ 52)

/-- Bit pattern of `i as f64` for `i : i64` (sign bit plus magnitude). -/
def intToF64bits (i : Int) : Nat :=
  if i < 0 then 2 ^ 63 + natToF64bits (-i).toNat else natToF64bits i.toNat

/-- `Number::as_f64`: every `serde_json` number variant yields a value (the
integer variants through a lossy cast).  Carried as the result's bit
pattern. -/
def JNumber.asF64 : JNumber → Option Nat
  | .posInt u => some (natToF64bits u)
  | .negInt i => some (intToF64bits i)
  | .float bits => some bits

/-- Byte concatenation over a list of values, as borsh writes a `Vec` body or
the `try_fold` over an object's values. -/
def jsonBorshList (f : Json → Option (List Nat)) : List Json → Option (List Nat)
  | [] => some []
  | v :: vs =>
    match f v with
    | none => none
    | some b =>
      match jsonBorshList f vs with
      | none => none
      | some r => some (b ++ r)

/-- `impl BorshSerialize for JsonSerializableAsBorsh` (src/json_borsh.rs:9-39).
`none` is the fuel-exhaustion artifact; every source behaviour is `some`.
Note the number arm checks `as_f64` FIRST, then `as_u64`, then `as_i64`. -/
def jsonBorshBytes : Nat → Json → Option (List Nat) :=
  fun fuel value =>
  match value with
  | .null => some [0]
  | .jbool b => some [if b then 1 else 0]
  | .num n =>
    match n.asF64 with
    | some f => some (natToLe 8 f)
    | none =>
      match n.asU64 with
      | some u => some (natToLe 8 u)
      | none =>
        match n.asI64 with
        | some i => some (intToLe 8 i)
        | none => none
  | .str s => some (natToLe 4 ((utf8Encode s).length % 2 ^ 32) ++ utf8Encode s)
  | .arr v =>
    match fuel with
    | 0 => none
    | fuel + 1 =>
      (jsonBorshList (jsonBorshBytes fuel) v).map
        (fun body => natToLe 4 (v.length % 2 ^ 32) ++ body)
  | .obj o =>
    match fuel with
    | 0 => none
    | fuel + 1 => jsonBorshList (jsonBorshBytes fuel) (o.map (fun kv => kv.2))

/-! ## Schema compressor (`compress_schema.rs`) -/

/-- Compressor failures: `outOfFuel` models both recursion-depth exhaustion
(the Rust `add_definitions_rec` recurses forever on cyclic schemas) and the
unbounded `next_name` scan; `unwrapPanic` is the terminal
`old_to_new_map.get(..).unwrap()` panic when the root was never renamed. -/
inductive CErr where
  | outOfFuel
  | unwrapPanic
  deriving DecidableEq

/-- Gas bound for one `next_name` scan: enough to cross the whole scalar-value
range, so a `none` result only arises where the Rust loop never terminates. -/
def nextNameGas : Nat := 0x110002

/-- `next_name` (src/compress_schema.rs:15-23): the first valid Unicode scalar
at or after `code`, as a one-character string, plus the advanced counter. -/
def nextNameAux : Nat → Nat → Option (String × Nat)
  | 0, _ => none
  | gas + 1, code =>
    if code.isValidChar then some (⟨[Char.ofNat code]⟩, code + 1)
    else nextNameAux gas (code + 1)

/-- `get_inner_definitions` (src/compress_schema.rs:25-53): every Declaration
a Definition refers to. -/
def innerDecls : Definition → List Declaration
  | .array _ el => [el]
  | .sequence el => [el]
  | .tuple els => els
  | .enum vs => vs.map (fun p => p.2)
  | .struct (.namedFields nfs) => nfs.map (fun p => p.2)
  | .struct (.unnamedFields ds) => ds
  | .struct .empty => []

/-- The `get` closure of `add_definitions_rec`: rewrite through the renaming
map, leaving unmapped names (in particular the skipped primitives) alone. -/
def applyM (m : List (String × String)) (n : String) : String :=
  (alookup m n).getD n

/-- Clone a Definition with every referenced Declaration rewritten
(src/compress_schema.rs:72-129); variant and field names are untouched. -/
def renameDef (get : Declaration → Declaration) : Definition → Definition
  | .array len el => .array len (get el)
  | .sequence el => .sequence (get el)
  | .tuple els => .tuple (els.map get)
  | .enum vs => .enum (vs.map (fun p => (p.1, get p.2)))
  | .struct (.namedFields nfs) =>
    .struct (.namedFields (nfs.map (fun p => (p.1, get p.2))))
  | .struct (.unnamedFields ds) => .struct (.unnamedFields (ds.map get))
  | .struct .empty => .struct .empty

/-- The declarations a popped Definition pushes onto the work stack
(src/compress_schema.rs:167-188); the Rust stack is a `Vec` popped from the
end, so here (list head = top) an `extend` reverses onto the front. -/
def pushInner (defn : Definition) (rest : List Declaration) : List Declaration :=
  match defn with
  | .sequence el => el :: rest
  | .array _ el => el :: rest
  | .tuple els => els.reverse ++ rest
  | .enum vs => (vs.map (fun p => p.2)).reverse ++ rest
  | .struct (.namedFields nfs) => (nfs.map (fun p => p.2)).reverse ++ rest
  | .struct (.unnamedFields ds) => ds.reverse ++ rest
  | .struct .empty => rest

/-- One iteration of the renaming work-stack loop of `compress_schema`
(src/compress_schema.rs:144-189); `ih` runs the remaining iterations. -/
def compressStepF (defs : List (Declaration × Definition))
    (ih : List Declaration → List (String × String) → Nat →
      Except CErr (List (String × String)))
    (stack : List Declaration) (m : List (String × String)) (code : Nat) :
    Except CErr (List (String × String)) :=
  match stack with
  | [] => .ok m
  | old :: rest =>
    if isPrim12 old then ih rest m code
    else
      match alookup m old with
      | some _ => ih rest m code
      | none =>
        match nextNameAux nextNameGas code with
        | none => .error .outOfFuel
        | some (newName, code') =>
          let m' := (old, newName) :: m
          match alookup defs old with
          | none => ih rest m' code'
          | some defn => ih (pushInner defn rest) m' code'

/-- The renaming work-stack loop of `compress_schema`
(src/compress_schema.rs:142-189), iterated on fuel.  Note the primitive skip
list has exactly twelve entries: `f32`/`f64` are treated like user
declarations and get renamed. -/
def compressLoop (defs : List (Declaration × Definition)) :
    Nat → List Declaration → List (String × String) → Nat →
    Except CErr (List (String × String)) :=
  fun fuel =>
  Nat.rec (motive := fun _ => List Declaration → List (String × String) → Nat →
      Except CErr (List (String × String)))
    (fun _ _ _ => .error .outOfFuel)
    (fun _ ih => compressStepF defs ih)
    fuel

/-- The `for i in old_definition.get_inner_definitions()` recursion loop of
`add_definitions_rec`, threading the accumulated new definitions. -/
def addDefsListF
    (f : List (Declaration × Definition) → Declaration →
      Except CErr (List (Declaration × Definition))) :
    List (Declaration × Definition) → List Declaration →
    Except CErr (List (Declaration × Definition))
  | nd, [] => .ok nd
  | nd, i :: rest =>
    match f nd i with
    | .error e => .error e
    | .ok nd2 => addDefsListF f nd2 rest

/-- One step of `add_definitions_rec` (src/compress_schema.rs:55-136): when
the current Declaration is both renamed and defined, insert its rewritten
Definition under its new name and recurse (`ih`) into every referenced
Declaration. -/
def addDefsStepF (oldDefs : List (Declaration × Definition))
    (m : List (String × String))
    (ih : List (Declaration × Definition) → Declaration →
      Except CErr (List (Declaration × Definition)))
    (nd : List (Declaration × Definition)) (current : Declaration) :
    Except CErr (List (Declaration × Definition)) :=
  match alookup m current, alookup oldDefs current with
  | some newName, some oldDefinition =>
    addDefsListF ih (ainsert nd newName (renameDef (applyM m) oldDefinition))
      (innerDecls oldDefinition)
  | _, _ => .ok nd

/-- `add_definitions_rec` (src/compress_schema.rs:55-136), iterated on fuel;
the Rust recursion has no visited-set, so on cyclic schemas it never
terminates (here: exhausts any fuel). -/
def add_definitions_rec (oldDefs : List (Declaration × Definition))
    (m : List (String × String)) :
    Nat → List (Declaration × Definition) → Declaration →
    Except CErr (List (Declaration × Definition)) :=
  fun fuel =>
  Nat.rec (motive := fun _ => List (Declaration × Definition) → Declaration →
      Except CErr (List (Declaration × Definition)))
    (fun _ _ => .error .outOfFuel)
    (fun _ ih => addDefsStepF oldDefs m ih)
    fuel

/-- `compress_schema` (src/compress_schema.rs:138-207). -/
def compress_schema (fuel : Nat) (schema : BorshSchemaContainer) :
    Except CErr BorshSchemaContainer :=
  match compressLoop schema.definitions fuel [schema.declaration] [] 0 with
  | .error e => .error e
  | .ok m =>
    match add_definitions_rec schema.definitions m fuel [] schema.declaration with
    | .error e => .error e
    | .ok nd =>
      match alookup m schema.declaration with
      | some newRoot => .ok ⟨newRoot, nd⟩
      | none => .error .unwrapPanic

/-- Renaming of the declaration named by a `todo!` panic; all other decoder
outcomes carry no declaration. -/
def renameDErr (rho : String → String) : DErr → DErr
  | .todoUnknown d => .todoUnknown (rho d)
  | e => e

/-- Map a function over the error of an `Except DErr` result. -/
def emapErr {α : Type} (f : DErr → DErr) : Except DErr α → Except DErr α
  | .ok a => .ok a
  | .error e => .error (f e)

/-! ## Predicates for the compression-preserves-decoding development -/

/-- The renaming map is injective on its values. -/
def MapInj (m : List (String × String)) : Prop :=
  ∀ k1 k2 v, alookup m k1 = some v → alookup m k2 = some v → k1 = k2

/-- Well-formedness of the in-progress renaming map relative to the name
counter: every assigned name is a single valid scalar below the counter
(which also forces injectivity, since the counter only moves forward). -/
def MapOK (m : List (String × String)) (code : Nat) : Prop :=
  (∀ k v, alookup m k = some v →
    ∃ c, c < code ∧ c.isValidChar ∧ v = ⟨[Char.ofNat c]⟩) ∧ MapInj m

/-- Every entry of the rebuilt definitions map is the correctly renamed clone
of the (unique, by injectivity) original definition its key renames. -/
def AllCorrect (oldDefs : List (Declaration × Definition))
    (m : List (String × String)) (nd : List (Declaration × Definition)) : Prop :=
  ∀ k v, alookup nd k = some v →
    ∃ d defn, alookup m d = some k ∧ alookup oldDefs d = some defn ∧
      v = renameDef (applyM m) defn

/-- Reachability along the recursion edges of `add_definitions_rec`: from `a`,
through declarations that are both renamed and defined, into their referenced
declarations.  This is exactly the set of declarations the schema walkers can
reach from `a`. -/
inductive ReachA (defs : List (Declaration × Definition))
    (m : List (String × String)) : Declaration → Declaration → Prop where
  | refl (d : Declaration) : ReachA defs m d d
  | step (c i d : Declaration) (nn : String) (defn : Definition) :
      alookup m c = some nn → alookup defs c = some defn →
      i ∈ innerDecls defn → ReachA defs m i d → ReachA defs m c d

/-! # Theorems -/

/-! Concrete evaluations of the embedded operations (sanity checks against
the source and the spec scenario E3). -/

example :
    deserialize_declaration_from_schema id ⟨"u8", []⟩ 0 "u8" [5, 9] =
      .ok (.num (.posInt 5), [9]) := rfl

example :
    deserialize_declaration_from_schema id ⟨"i8", []⟩ 0 "i8" [255] =
      .ok (.num (.negInt (-1)), []) := rfl

example :
    deserialize_declaration_from_schema id
      ⟨"A", [("A", .sequence "u8")]⟩ 3 "A" [2, 0, 0, 0, 7, 9] =
      .ok (.arr [.num (.posInt 7), .num (.posInt 9)], []) := rfl

example :
    deserialize_declaration_from_schema id
      ⟨"E", [("E", .enum [("A", "u8"), ("B", "bool")])]⟩ 3 "E" [1, 1] =
      .ok (.obj [("B", .jbool true)], []) := rfl

example :
    deserialize_declaration_from_schema id
      ⟨"S", [("S", .struct (.namedFields [("a", "u8"), ("b", "u8")]))]⟩
      3 "S" [1, 2] =
      .ok (.obj [("a", .num (.posInt 1)), ("b", .num (.posInt 2))], []) := rfl

example :
    deserialize_declaration_from_schema (fun l => l.reverse)
      ⟨"S", [("S", .struct (.namedFields [("a", "u8"), ("b", "u8")]))]⟩
      3 "S" [1, 2] =
      .ok (.obj [("b", .num (.posInt 2)), ("a", .num (.posInt 1))], []) := rfl

example :
    deserialize_declaration_from_schema id ⟨"f32", []⟩ 5 "f32" [0, 0, 0, 0] =
      .error (.todoUnknown "f32") := rfl

example :
    deserialize_declaration_from_schema id
      ⟨"str", [("str", .sequence "string")]⟩ 3 "str"
      [1, 0, 0, 0, 2, 0, 0, 0, 0x28, 0x29] =
      .ok (.arr [.str "()"], []) := rfl

example :
    serialize_declaration_with_schema ⟨"i64", []⟩ 0
      (.num (.negInt (-1))) "i64" = .error (.expectation .number) := rfl

example :
    serialize_declaration_with_schema
      ⟨"E", [("E", .enum [("A", "u8"), ("B", "u8"), ("C", "u8")])]⟩ 2
      (.obj [("B", .num (.posInt 7))]) "E" = .ok [1, 7] := rfl

example :
    serialize_declaration_with_schema
      ⟨"Hello",
        [("Hello", .struct (.namedFields [("integer", "u32"), ("child", "Child")])),
         ("Child", .struct (.namedFields [("s", "string"), ("b", "bool")]))]⟩ 3
      (.obj [("integer", .num (.posInt 24)),
             ("child", .obj [("s", .str "()"), ("b", .jbool false)])])
      "Hello" =
      .ok [0x18, 0, 0, 0, 2, 0, 0, 0, 0x28, 0x29, 0] := rfl

example : jsonBorshBytes 0 .null = some [0] := rfl

example :
    jsonBorshBytes 0 (.num (.posInt 1)) =
      some [0, 0, 0, 0, 0, 0, 0xF0, 0x3F] := rfl

example :
    jsonBorshBytes 0 (.num (.negInt (-2))) =
      some [0, 0, 0, 0, 0, 0, 0, 0xC0] := rfl

example :
    compress_schema 20 ⟨"A", [("A", .sequence "f32")]⟩ =
      .ok ⟨"\x00", [("\x00", .sequence "\x01")]⟩ := rfl

example : compress_schema 20 ⟨"u32", []⟩ = .error .unwrapPanic := rfl

example : compress_schema 20 ⟨"f32", []⟩ = .ok ⟨"\x00", []⟩ := rfl

example :
    compress_schema 20 ⟨"A", [("A", .sequence "A")]⟩ = .error .outOfFuel := rfl

example :
    compress_schema 30
      ⟨"Hello",
        [("Hello", .struct (.namedFields [("n", "i32"), ("child", "Child")])),
         ("Child", .struct (.namedFields [("s", "string")]))]⟩ =
      .ok ⟨"\x00",
        [("\x00", .struct (.namedFields [("n", "i32"), ("child", "\x01")])),
         ("\x01", .struct (.namedFields [("s", "string")]))]⟩ := rfl


theorem isPrim12_elim {d : Declaration} (h : isPrim12 d = false) :
    d ≠ "u8" ∧ d ≠ "u16" ∧ d ≠ "u32" ∧ d ≠ "u64" ∧ d ≠ "u128" ∧
    d ≠ "i8" ∧ d ≠ "i16" ∧ d ≠ "i32" ∧ d ≠ "i64" ∧ d ≠ "i128" ∧
    d ≠ "string" ∧ d ≠ "bool" := by
  refine ⟨?_, ?_, ?_, ?_, ?_, ?_, ?_, ?_, ?_, ?_, ?_, ?_⟩ <;>
    · rintro rfl
      exact absurd h (by decide)

theorem deser_zero (g : List (String × Json) → List (String × Json))
    (schema : BorshSchemaContainer) :
    deserialize_declaration_from_schema g schema 0 = deserStep g schema none := rfl

theorem deser_succ (g : List (String × Json) → List (String × Json))
    (schema : BorshSchemaContainer) (fuel : Nat) :
    deserialize_declaration_from_schema g schema (fuel + 1) =
      deserStep g schema (some (deserialize_declaration_from_schema g schema fuel)) := rfl

theorem deserStep_prim (g : List (String × Json) → List (String × Json))
    (schema : BorshSchemaContainer)
    (r : Option (Declaration → List Nat → Except DErr (Json × List Nat)))
    (d : Declaration) (bs : List Nat) (hp : isPrim12 d = true) :
    deserStep g schema r d bs = decodePrim d bs := by
  simp [deserStep, hp]

theorem deserStep_user_none (g : List (String × Json) → List (String × Json))
    (schema : BorshSchemaContainer)
    (r : Option (Declaration → List Nat → Except DErr (Json × List Nat)))
    (d : Declaration) (bs : List Nat) (hp : isPrim12 d = false)
    (hl : alookup schema.definitions d = none) :
    deserStep g schema r d bs = .error (.todoUnknown d) := by
  simp [deserStep, hp, hl]

theorem deserStep_user_some (g : List (String × Json) → List (String × Json))
    (schema : BorshSchemaContainer)
    (dec : Declaration → List Nat → Except DErr (Json × List Nat))
    (d : Declaration) (bs : List Nat) (defn : Definition)
    (hp : isPrim12 d = false)
    (hl : alookup schema.definitions d = some defn) :
    deserStep g schema (some dec) d bs = decodeDefinition g dec defn bs := by
  simp [deserStep, hp, hl]

theorem deserStep_user_fuelout (g : List (String × Json) → List (String × Json))
    (schema : BorshSchemaContainer) (d : Declaration) (bs : List Nat)
    (defn : Definition) (hp : isPrim12 d = false)
    (hl : alookup schema.definitions d = some defn) :
    deserStep g schema none d bs = .error .outOfFuel := by
  simp [deserStep, hp, hl]

theorem ser_zero (schema : BorshSchemaContainer) :
    serialize_declaration_with_schema schema 0 = serStep schema none := rfl

theorem ser_succ (schema : BorshSchemaContainer) (fuel : Nat) :
    serialize_declaration_with_schema schema (fuel + 1) =
      serStep schema (some (serialize_declaration_with_schema schema fuel)) := rfl

theorem serStep_prim (schema : BorshSchemaContainer)
    (r : Option (Json → Declaration → Except SErr (List Nat)))
    (value : Json) (d : Declaration) (hp : isPrim12 d = true) :
    serStep schema r value d = serializePrim value d := by
  simp [serStep, hp]

theorem serStep_user_none (schema : BorshSchemaContainer)
    (r : Option (Json → Declaration → Except SErr (List Nat)))
    (value : Json) (d : Declaration) (hp : isPrim12 d = false)
    (hl : alookup schema.definitions d = none) :
    serStep schema r value d = .error (.todoUnknown d) := by
  simp [serStep, hp, hl]

theorem serStep_user_some (schema : BorshSchemaContainer)
    (ser : Json → Declaration → Except SErr (List Nat))
    (value : Json) (d : Declaration) (defn : Definition)
    (hp : isPrim12 d = false)
    (hl : alookup schema.definitions d = some defn) :
    serStep schema (some ser) value d = serializeDefinition ser defn value := by
  simp [serStep, hp, hl]

/-- Claim C3.  The spec says the schema-driven decoder handles the primitive
declarations `f32`/`f64` (IEEE-754 little-endian bytes to JSON numbers).  The
source has no `f32`/`f64` match arm at all: both names fall through to the
user-declaration branch, are looked up in `definitions`, and — absent there —
hit the `todo!("Unknown type to deserialize: …")` panic.  The same holds for
the encoder.  This theorem evaluates the embedded code at the failing inputs:
4 (resp. 8) zero bytes, which the claim says decode to the JSON number 0. -/
theorem claim_C3_float_primitives_unsupported :
    deserialize_declaration_from_schema id ⟨"f32", []⟩ 5 "f32" [0, 0, 0, 0] =
        .error (.todoUnknown "f32") ∧
    deserialize_declaration_from_schema id ⟨"f64", []⟩ 5 "f64"
        [0, 0, 0, 0, 0, 0, 0, 0] = .error (.todoUnknown "f64") ∧
    serialize_declaration_with_schema ⟨"f32", []⟩ 5 (.num (.posInt 0)) "f32" =
        .error (.todoUnknown "f32") ∧
    serialize_declaration_with_schema ⟨"f64", []⟩ 5 (.num (.posInt 0)) "f64" =
        .error (.todoUnknown "f64") :=
  ⟨rfl, rfl, rfl, rfl⟩

/-- Claim C4.  The spec (and its own open-question note) says the `i64` encode
arm accepts every JSON number fitting `i64`, negative integers included, via
`as_i64`.  The source arm calls `value.as_u64()`, which yields nothing for a
negative number, so `-1` is rejected with `ExpectationError::Number` instead
of being written as `ff ff ff ff ff ff ff ff`; non-negative numbers are
written as little-endian bytes. -/
theorem claim_C4_i64_rejects_negative :
    serialize_declaration_with_schema ⟨"i64", []⟩ 0 (.num (.negInt (-1)))
        "i64" = .error (.expectation .number) ∧
    serialize_declaration_with_schema ⟨"i64", []⟩ 0 (.num (.posInt 5)) "i64" =
        .ok [5, 0, 0, 0, 0, 0, 0, 0] ∧
    Json.asU64 (.num (.negInt (-1))) = none :=
  ⟨rfl, rfl, rfl⟩

/-- Claim C5 counterexample.  The claim says the schema-less encoder writes an
integral non-negative JSON number as a little-endian `u64` (so `1` would give
`01 00 00 00 00 00 00 00`) and an integral negative number as an `i64` (so
`-2` would give `fe ff ff ff ff ff ff ff`).  In the source the number arm
checks `as_f64()` first, and `serde_json`'s `as_f64` succeeds on every number
variant, so `1` actually encodes as the IEEE-754 double `3FF0000000000000` and
`-2` as `C000000000000000`. -/
theorem claim_C5_counterexample :
    jsonBorshBytes 0 (.num (.posInt 1)) = some [0, 0, 0, 0, 0, 0, 0xF0, 0x3F] ∧
    jsonBorshBytes 0 (.num (.posInt 1)) ≠ some (natToLe 8 1) ∧
    jsonBorshBytes 0 (.num (.negInt (-2))) = some [0, 0, 0, 0, 0, 0, 0, 0xC0] ∧
    jsonBorshBytes 0 (.num (.negInt (-2))) ≠ some (intToLe 8 (-2)) := by
  refine ⟨rfl, ?_, rfl, ?_⟩ <;> decide

/-- Claim C5 as amended: every JSON number — integral or not, of either sign —
is written by the schema-less encoder as the 8 little-endian bytes of its
`as_f64` value; the `u64` and `i64` branches of the source are dead code. -/
theorem claim_C5_number_always_f64 (fuel : Nat) (n : JNumber) :
    jsonBorshBytes fuel (.num n) = (n.asF64).map (natToLe 8) := by
  cases fuel <;> cases n <;> rfl

/-- Claim C6.  The spec's error taxonomy says an unknown (non-primitive,
undefined) declaration yields a `SchemaDangling` error naming it, an error
result rather than a crash.  Both walkers instead hit `todo!(..)` — a panic
that aborts the process — modelled here as the dedicated `todoUnknown`
outcome.  Evaluated at the failing input: declaration `"Foo"` with empty
definitions. -/
theorem claim_C6_unknown_declaration_panics :
    deserialize_declaration_from_schema id ⟨"Foo", []⟩ 5 "Foo" [] =
        .error (.todoUnknown "Foo") ∧
    serialize_declaration_with_schema ⟨"Foo", []⟩ 5 .null "Foo" =
        .error (.todoUnknown "Foo") :=
  ⟨rfl, rfl⟩

/-- Claim C7.  The spec says a variant-index byte ≥ the variant count aborts
the decode with an `EnumIndexOutOfRange` diagnostic.  The source indexes
`variants[variant_index as usize]` without a bounds check, so such input
aborts via the standard library's index-out-of-bounds panic — no
`EnumIndexOutOfRange` error value exists anywhere in the code.  Evaluated at
the failing input: a one-variant enum and index byte `0x01`. -/
theorem claim_C7_enum_index_panics :
    deserialize_declaration_from_schema id ⟨"E", [("E", .enum [("A", "u8")])]⟩
        5 "E" [1] = .error .indexPanic ∧
    deserialize_declaration_from_schema id ⟨"E", [("E", .enum [("A", "u8")])]⟩
        5 "E" [0, 7] = .ok (.obj [("A", .num (.posInt 7))], []) :=
  ⟨rfl, rfl⟩

theorem compressLoop_succ (defs : List (Declaration × Definition)) (fuel : Nat) :
    compressLoop defs (fuel + 1) = compressStepF defs (compressLoop defs fuel) := rfl

theorem addRec_succ (oldDefs : List (Declaration × Definition))
    (m : List (String × String)) (fuel : Nat) :
    add_definitions_rec oldDefs m (fuel + 1) =
      addDefsStepF oldDefs m (add_definitions_rec oldDefs m fuel) := rfl

set_option maxRecDepth 4000 in
/-- Claim C8 counterexample.  The claim says the leading byte equals the
zero-based position of the matched variant, for every Enum definition.  With
257 variants the matched position 256 is truncated by the `as u8` cast: the
encoder emits leading byte `0x00`, which cannot equal position 256. -/
theorem claim_C8_counterexample :
    findVariant (List.replicate 256 ("x", "u8") ++ [("y", "u8")]) "y" 0 =
      some (256, "u8") ∧
    serialize_declaration_with_schema
      ⟨"E", [("E", .enum (List.replicate 256 ("x", "u8") ++ [("y", "u8")]))]⟩ 2
      (.obj [("y", .num (.posInt 0))]) "E" = .ok [0, 0] ∧
    (0 : Nat) ≠ 256 := by
  refine ⟨rfl, rfl, by decide⟩

/-- Claim C8 as amended: encoding `{name: payload}` under an Enum definition
writes one byte equal to the matched variant's zero-based position *reduced
mod 256* (the `as u8` cast), followed by the payload's encoding under that
variant's Declaration; for enums with at most 256 variants this is exactly
the position.  A name matching no variant is an error. -/
theorem claim_C8_enum_variant_encoding :
    (∀ (schema : BorshSchemaContainer) (fuel : Nat) (d : Declaration)
      (vs : List (String × Declaration)) (name : String) (payload : Json)
      (i : Nat) (vd : Declaration),
      isPrim12 d = false →
      alookup schema.definitions d = some (.enum vs) →
      findVariant vs name 0 = some (i, vd) →
      serialize_declaration_with_schema schema (fuel + 1)
          (.obj [(name, payload)]) d =
        (serialize_declaration_with_schema schema fuel payload vd).map
          (fun body => i % 256 :: body)) ∧
    (∀ (schema : BorshSchemaContainer) (fuel : Nat) (d : Declaration)
      (vs : List (String × Declaration)) (name : String) (payload : Json),
      isPrim12 d = false →
      alookup schema.definitions d = some (.enum vs) →
      findVariant vs name 0 = none →
      serialize_declaration_with_schema schema (fuel + 1)
          (.obj [(name, payload)]) d = .error (.variantNotFound name)) := by
  constructor
  · intro schema fuel d vs name payload i vd hp hl hf
    rw [ser_succ, serStep_user_some _ _ _ _ _ hp hl]
    simp only [serializeDefinition, alookup, if_pos rfl, hf]
    cases h : serialize_declaration_with_schema schema fuel payload vd <;>
      simp [h, Except.map, Option.getD]
  · intro schema fuel d vs name payload hp hl hf
    rw [ser_succ, serStep_user_some _ _ _ _ _ hp hl]
    simp only [serializeDefinition, alookup, if_pos rfl, hf]

/-- Claim C8 witness: the spec's own scenario — variants `[A, B, C]` and JSON
`{"B": 7}` yield leading byte `0x01` then the encoding of `7` under `u8`; an
unknown variant name is an error. -/
theorem claim_C8_enum_variant_encoding_witness :
    serialize_declaration_with_schema
      ⟨"E", [("E", .enum [("A", "u8"), ("B", "u8"), ("C", "u8")])]⟩ 2
      (.obj [("B", .num (.posInt 7))]) "E" = .ok [1, 7] ∧
    serialize_declaration_with_schema
      ⟨"E", [("E", .enum [("A", "u8"), ("B", "u8"), ("C", "u8")])]⟩ 2
      (.obj [("D", .num (.posInt 7))]) "E" = .error (.variantNotFound "D") := by
  constructor
  · rw [claim_C8_enum_variant_encoding.1
      ⟨"E", [("E", .enum [("A", "u8"), ("B", "u8"), ("C", "u8")])]⟩ 1 "E"
      [("A", "u8"), ("B", "u8"), ("C", "u8")] "B" (.num (.posInt 7)) 1 "u8"
      rfl rfl rfl]
    rfl
  · exact claim_C8_enum_variant_encoding.2
      ⟨"E", [("E", .enum [("A", "u8"), ("B", "u8"), ("C", "u8")])]⟩ 1 "E"
      [("A", "u8"), ("B", "u8"), ("C", "u8")] "D" (.num (.posInt 7))
      rfl rfl rfl

/-- Claim C9 (implicit behaviour, confirmed): when the JSON value for an Enum
declaration is an object with two or more keys, the encoder reports no shape
error; it encodes exactly as it would the single-entry object made of the
object's first key-value pair, silently ignoring every other key (the source
takes `o.keys().next()` and indexes `o[s]`). -/
theorem claim_C9_enum_takes_first_key :
    ∀ (schema : BorshSchemaContainer) (fuel : Nat) (d : Declaration)
      (vs : List (String × Declaration)) (k : String) (v : Json)
      (rest : List (String × Json)),
      isPrim12 d = false →
      alookup schema.definitions d = some (.enum vs) →
      serialize_declaration_with_schema schema fuel (.obj ((k, v) :: rest)) d =
        serialize_declaration_with_schema schema fuel (.obj [(k, v)]) d := by
  intro schema fuel d vs k v rest hp hl
  cases fuel with
  | zero => rw [ser_zero]; simp [serStep, hp, hl]
  | succ fuel =>
    rw [ser_succ, serStep_user_some _ _ _ _ _ hp hl,
      serStep_user_some _ _ _ _ _ hp hl]
    simp [serializeDefinition, alookup]

/-- Claim C9 witness: `{"B": 7, "C": 1}` and `{"B": 7}` encode to the same
bytes under a three-variant enum. -/
theorem claim_C9_enum_takes_first_key_witness :
    serialize_declaration_with_schema
      ⟨"E", [("E", .enum [("A", "u8"), ("B", "u8"), ("C", "u8")])]⟩ 2
      (.obj [("B", .num (.posInt 7)), ("C", .num (.posInt 1))]) "E" =
      serialize_declaration_with_schema
        ⟨"E", [("E", .enum [("A", "u8"), ("B", "u8"), ("C", "u8")])]⟩ 2
        (.obj [("B", .num (.posInt 7))]) "E" :=
  claim_C9_enum_takes_first_key
    ⟨"E", [("E", .enum [("A", "u8"), ("B", "u8"), ("C", "u8")])]⟩ 2 "E"
    [("A", "u8"), ("B", "u8"), ("C", "u8")] "B" (.num (.posInt 7))
    [("C", .num (.posInt 1))] rfl rfl

/-- Claim C2 counterexample.  The claim says the decoded object's keys appear
in declared field order.  The source accumulates the fields into a
`std::collections::HashMap` and emits that map's unspecified iteration order;
with the iteration-order oracle instantiated to reversal (a perfectly
possible hash iteration order), a two-field struct `{a, b}` decodes with keys
`["b", "a"]`, not the declared `["a", "b"]`. -/
theorem claim_C2_counterexample :
    deserialize_declaration_from_schema (fun l => l.reverse)
      ⟨"S", [("S", .struct (.namedFields [("a", "u8"), ("b", "u8")]))]⟩
      3 "S" [1, 2] =
      .ok (.obj [("b", .num (.posInt 2)), ("a", .num (.posInt 1))], []) ∧
    ["b", "a"] ≠ ["a", "b"] :=
  ⟨rfl, by decide⟩

/-- Claim C2 as amended: for every iteration-order oracle that (like a real
`HashMap`) emits a permutation of its entries, decoding a NamedFields struct
produces an object whose entries are a permutation of the fields decoded in
declared order (deduplicated by key as `HashMap::insert` does) — the key
multiset is right, but the iteration order of the output object is
unspecified rather than the declared order. -/
theorem claim_C2_named_order_unspecified :
    ∀ (g : List (String × Json) → List (String × Json)),
      (∀ l, (g l).Perm l) →
      ∀ (schema : BorshSchemaContainer) (fuel : Nat) (d : Declaration)
        (nfs : List (String × Declaration)) (bs : List Nat)
        (entries : List (String × Json)) (rest : List Nat),
        isPrim12 d = false →
        alookup schema.definitions d = some (.struct (.namedFields nfs)) →
        deserialize_declaration_from_schema g schema (fuel + 1) d bs =
          .ok (.obj entries, rest) →
        ∃ pairs,
          decodeNamedF (deserialize_declaration_from_schema g schema fuel)
              nfs bs = .ok (pairs, rest) ∧
          entries = g (ainsertAll [] pairs) ∧
          entries.Perm (ainsertAll [] pairs) := by
  intro g hg schema fuel d nfs bs entries rest hp hl hdec
  rw [deser_succ, deserStep_user_some _ _ _ _ _ _ hp hl] at hdec
  simp only [decodeDefinition] at hdec
  cases hnf : decodeNamedF (deserialize_declaration_from_schema g schema fuel)
      nfs bs with
  | error e => rw [hnf] at hdec; simp [Except.map] at hdec
  | ok p =>
    obtain ⟨pairs, rest2⟩ := p
    rw [hnf] at hdec
    simp only [Except.map, Except.ok.injEq, Prod.mk.injEq, Json.obj.injEq] at hdec
    obtain ⟨h1, h2⟩ := hdec
    subst h2
    refine ⟨pairs, rfl, h1.symm, ?_⟩
    rw [← h1]
    exact hg (ainsertAll [] pairs)

/-- Claim C2 witness: the amended statement applied at the reversal oracle and
a concrete two-field struct. -/
theorem claim_C2_named_order_unspecified_witness :
    ∃ pairs,
      decodeNamedF
          (deserialize_declaration_from_schema (fun l => l.reverse)
            ⟨"S", [("S", .struct (.namedFields [("a", "u8"), ("b", "u8")]))]⟩ 2)
          [("a", "u8"), ("b", "u8")] [1, 2] = .ok (pairs, []) ∧
      [("b", Json.num (.posInt 2)), ("a", Json.num (.posInt 1))] =
        (fun l => l.reverse) (ainsertAll [] pairs) ∧
      List.Perm [("b", Json.num (.posInt 2)), ("a", Json.num (.posInt 1))]
        (ainsertAll [] pairs) :=
  claim_C2_named_order_unspecified (fun l => l.reverse)
    (fun l => List.reverse_perm l)
    ⟨"S", [("S", .struct (.namedFields [("a", "u8"), ("b", "u8")]))]⟩ 2 "S"
    [("a", "u8"), ("b", "u8")] [1, 2]
    [("b", Json.num (.posInt 2)), ("a", Json.num (.posInt 1))] [] rfl rfl rfl

/-- Claim C10 counterexample.  The claim says compression has no defined
result whenever the root declaration is primitive.  The spec's primitive set
includes `f32`/`f64`, but the compressor's skip list does not: a schema
rooted at `f32` is renamed like a user declaration and compression succeeds,
returning the schema rooted at the fresh name `"\x00"`. -/
theorem claim_C10_counterexample :
    compress_schema 10 ⟨"f32", []⟩ = .ok ⟨"\x00", []⟩ :=
  rfl

/-- Claim C10 as amended: for every Schema whose root declaration is one of
the twelve primitives actually special-cased by the code (`u8`-`u128`,
`i8`-`i128`, `string`, `bool`), the work loop records no renaming for the
root, the final `unwrap` of the root's renaming panics, and `compress_schema`
therefore has no defined result — regardless of the definitions map.
`f32`/`f64` roots fall outside this set and succeed. -/
theorem claim_C10_primitive_root_fails :
    ∀ (defs : List (Declaration × Definition)) (fuel : Nat) (p : Declaration),
      isPrim12 p = true →
      compress_schema (fuel + 2) ⟨p, defs⟩ = .error .unwrapPanic := by
  intro defs fuel p hp
  have hloop : compressLoop defs (fuel + 2) [p] [] 0 = .ok [] := by
    rw [compressLoop_succ]
    simp only [compressStepF, hp, if_pos]
    rw [compressLoop_succ]
    rfl
  have hadd : add_definitions_rec defs [] (fuel + 2) [] p = .ok [] := by
    rw [addRec_succ]
    simp [addDefsStepF, alookup]
  simp [compress_schema, hloop, hadd, alookup]

/-- Claim C10 witness: a `u32`-rooted schema fails with the unwrap panic. -/
theorem claim_C10_primitive_root_fails_witness :
    compress_schema 2 ⟨"u32", [("x", .sequence "u8")]⟩ = .error .unwrapPanic :=
  claim_C10_primitive_root_fails [("x", .sequence "u8")] 0 "u32" rfl

theorem charOfNat_toNat (c : Nat) (h : c.isValidChar) :
    (Char.ofNat c).toNat = c := by
  simp only [Char.ofNat, h, Char.ofNatAux, Char.toNat, dif_pos]
  rfl

theorem charOfNat_inj (c c' : Nat) (h : c.isValidChar) (h' : c'.isValidChar)
    (heq : Char.ofNat c = Char.ofNat c') : c = c' := by
  have h2 := congrArg Char.toNat heq
  rwa [charOfNat_toNat c h, charOfNat_toNat c' h'] at h2

theorem isPrim12_cases {d : Declaration} (h : isPrim12 d = true) :
    d = "u8" ∨ d = "u16" ∨ d = "u32" ∨ d = "u64" ∨ d = "u128" ∨
    d = "i8" ∨ d = "i16" ∨ d = "i32" ∨ d = "i64" ∨ d = "i128" ∨
    d = "string" ∨ d = "bool" := by
  simp only [isPrim12, Bool.or_eq_true, decide_eq_true_eq] at h
  tauto

theorem isPrim12_singleton (ch : Char) : isPrim12 ⟨[ch]⟩ = false := by
  cases hb : isPrim12 (⟨[ch]⟩ : String) with
  | false => rfl
  | true =>
    rcases isPrim12_cases hb with h|h|h|h|h|h|h|h|h|h|h|h <;>
    · have h2 := congrArg (fun s => s.data.length) h
      simp at h2

theorem alookup_ainsert_self {α : Type} (l : List (String × α)) (k : String)
    (v : α) : alookup (ainsert l k v) k = some v := by
  induction l with
  | nil => simp [ainsert, alookup]
  | cons p rest ih =>
    obtain ⟨k0, v0⟩ := p
    by_cases h0 : k0 = k
    · subst h0
      simp [ainsert, alookup]
    · simp [ainsert, alookup, h0, ih]

theorem alookup_ainsert_ne {α : Type} (l : List (String × α)) (k : String)
    (v : α) (q : String) (h : k ≠ q) :
    alookup (ainsert l k v) q = alookup l q := by
  induction l with
  | nil => simp [ainsert, alookup, h]
  | cons p rest ih =>
    obtain ⟨k0, v0⟩ := p
    by_cases h0 : k0 = k
    · subst h0
      simp [ainsert, alookup, h]
    · simp only [ainsert, if_neg h0, alookup]
      by_cases hq : k0 = q
      · simp [hq]
      · simp [hq, ih]

theorem reachA_snoc {defs : List (Declaration × Definition)}
    {m : List (String × String)} {a b : Declaration}
    (h : ReachA defs m a b) :
    ∀ (nn : String) (defn : Definition), alookup m b = some nn →
      alookup defs b = some defn → ∀ i, i ∈ innerDecls defn →
      ReachA defs m a i := by
  induction h with
  | refl d =>
    intro nn defn h1 h2 i h3
    exact ReachA.step d i i nn defn h1 h2 h3 (ReachA.refl i)
  | step c j dd nn2 defn2 hm2 hd2 hj hr ihr =>
    intro nn defn h1 h2 i h3
    exact ReachA.step c j i nn2 defn2 hm2 hd2 hj (ihr nn defn h1 h2 i h3)

theorem nextNameAux_spec :
    ∀ (gas code : Nat) (nn : String) (code' : Nat),
      nextNameAux gas code = some (nn, code') →
      ∃ c, code ≤ c ∧ c < code' ∧ c.isValidChar ∧ nn = ⟨[Char.ofNat c]⟩ ∧
        code' = c + 1 := by
  intro gas
  induction gas with
  | zero => intro code nn code' h; exact absurd h (by simp [nextNameAux])
  | succ gas ih =>
    intro code nn code' h
    simp only [nextNameAux] at h
    by_cases hv : code.isValidChar
    · rw [if_pos hv] at h
      obtain ⟨h1, h2⟩ := Prod.mk.injEq .. ▸ Option.some.injEq .. ▸ h
      exact ⟨code, le_refl code, by omega, hv, h1.symm, h2.symm⟩
    · rw [if_neg hv] at h
      obtain ⟨c, hc1, hc2, hc3, hc4, hc5⟩ := ih (code + 1) nn code' h
      exact ⟨c, by omega, hc2, hc3, hc4, hc5⟩

theorem pushInner_mem_inner (defn : Definition) (rest : List Declaration)
    (i : Declaration) (hi : i ∈ innerDecls defn) : i ∈ pushInner defn rest := by
  cases defn with
  | array len el => simp_all [innerDecls, pushInner]
  | sequence el => simp_all [innerDecls, pushInner]
  | tuple els => simp_all [innerDecls, pushInner]
  | enum vs => simp_all [innerDecls, pushInner]
  | struct fs => cases fs <;> simp_all [innerDecls, pushInner]

theorem pushInner_mem_rest (defn : Definition) (rest : List Declaration)
    (i : Declaration) (hi : i ∈ rest) : i ∈ pushInner defn rest := by
  cases defn with
  | array len el => simp_all [pushInner]
  | sequence el => simp_all [pushInner]
  | tuple els => simp_all [pushInner]
  | enum vs => simp_all [pushInner]
  | struct fs => cases fs <;> simp_all [pushInner]

/-- Invariants of the renaming work loop: (1) the map only grows, its entries
unchanged; (2) everything on the stack ends primitive or renamed; (3) every
declaration renamed during the run had, if defined, all its referenced
declarations end primitive or renamed; (4) the twelve skip-listed primitives
are never renamed. -/
theorem compressLoop_facts (defs : List (Declaration × Definition)) :
    ∀ (fuel : Nat) (stack : List Declaration) (m : List (String × String))
      (code : Nat) (mf : List (String × String)),
      compressLoop defs fuel stack m code = .ok mf →
      ((∀ k v, alookup m k = some v → alookup mf k = some v) ∧
       (∀ x, x ∈ stack → isPrim12 x = true ∨ (alookup mf x).isSome) ∧
       (∀ d, alookup m d = none → (alookup mf d).isSome →
         ∀ defn, alookup defs d = some defn →
           ∀ i, i ∈ innerDecls defn →
             isPrim12 i = true ∨ (alookup mf i).isSome) ∧
       (∀ p, isPrim12 p = true → alookup m p = none → alookup mf p = none)) := by
  intro fuel
  induction fuel with
  | zero =>
    intro stack m code mf h
    simp [compressLoop] at h
  | succ fuel ih =>
    intro stack m code mf h
    rw [compressLoop_succ] at h
    cases stack with
    | nil =>
      simp only [compressStepF] at h
      injection h with h
      subst h
      refine ⟨fun k v hv => hv, ?_, ?_, fun p _ hp => hp⟩
      · intro x hx
        simp at hx
      · intro d hdnone hdsome defn _ _ _
        rw [hdnone] at hdsome
        simp at hdsome
    | cons old rest =>
      simp only [compressStepF] at h
      split at h
      next hprim =>
        obtain ⟨ih1, ih2, ih3, ih4⟩ := ih rest m code mf h
        refine ⟨ih1, ?_, ih3, ih4⟩
        intro x hx
        rcases List.mem_cons.mp hx with rfl | hx
        · exact Or.inl hprim
        · exact ih2 x hx
      next hprim =>
        have hprimf : isPrim12 old = false := by
          revert hprim; cases isPrim12 old <;> simp
        split at h
        next v hm =>
          obtain ⟨ih1, ih2, ih3, ih4⟩ := ih rest m code mf h
          refine ⟨ih1, ?_, ih3, ih4⟩
          intro x hx
          rcases List.mem_cons.mp hx with rfl | hx
          · exact Or.inr (by rw [ih1 x v hm]; rfl)
          · exact ih2 x hx
        next hm =>
          split at h
          next hnn => exact Except.noConfusion h
          next nn code' hnn =>
            have hconsOld : alookup ((old, nn) :: m) old = some nn := by
              simp [alookup]
            have hconsNe : ∀ k, old ≠ k →
                alookup ((old, nn) :: m) k = alookup m k := by
              intro k hk
              simp [alookup, hk]
            split at h
            next hdefs =>
              obtain ⟨ih1, ih2, ih3, ih4⟩ := ih rest ((old, nn) :: m) code' mf h
              have hmono : ∀ k v, alookup m k = some v → alookup mf k = some v := by
                intro k v hv
                have hne : old ≠ k := by
                  intro he
                  rw [← he, hm] at hv
                  cases hv
                exact ih1 k v (by rw [hconsNe k hne]; exact hv)
              refine ⟨hmono, ?_, ?_, ?_⟩
              · intro x hx
                rcases List.mem_cons.mp hx with rfl | hx
                · exact Or.inr (by rw [ih1 x nn hconsOld]; rfl)
                · exact ih2 x hx
              · intro d hdnone hdsome defn hdefn i hi
                by_cases hde : d = old
                · subst hde
                  rw [hdefs] at hdefn
                  cases hdefn
                · refine ih3 d ?_ hdsome defn hdefn i hi
                  rw [hconsNe d (fun he => hde he.symm)]
                  exact hdnone
              · intro p hp hpnone
                have hne : old ≠ p := by
                  intro he
                  rw [he] at hprimf
                  rw [hprimf] at hp
                  cases hp
                exact ih4 p hp (by rw [hconsNe p hne]; exact hpnone)
            next defn0 hdefs =>
              obtain ⟨ih1, ih2, ih3, ih4⟩ :=
                ih (pushInner defn0 rest) ((old, nn) :: m) code' mf h
              have hmono : ∀ k v, alookup m k = some v → alookup mf k = some v := by
                intro k v hv
                have hne : old ≠ k := by
                  intro he
                  rw [← he, hm] at hv
                  cases hv
                exact ih1 k v (by rw [hconsNe k hne]; exact hv)
              refine ⟨hmono, ?_, ?_, ?_⟩
              · intro x hx
                rcases List.mem_cons.mp hx with rfl | hx
                · exact Or.inr (by rw [ih1 x nn hconsOld]; rfl)
                · exact ih2 x (pushInner_mem_rest defn0 rest x hx)
              · intro d hdnone hdsome defn hdefn i hi
                by_cases hde : d = old
                · subst hde
                  rw [hdefs] at hdefn
                  injection hdefn with hdefn
                  subst hdefn
                  exact ih2 i (pushInner_mem_inner _ rest i hi)
                · refine ih3 d ?_ hdsome defn hdefn i hi
                  rw [hconsNe d (fun he => hde he.symm)]
                  exact hdnone
              · intro p hp hpnone
                have hne : old ≠ p := by
                  intro he
                  rw [he] at hprimf
                  rw [hprimf] at hp
                  cases hp
                exact ih4 p hp (by rw [hconsNe p hne]; exact hpnone)

theorem singleton_char_inj {c c' : Nat} (h : c.isValidChar)
    (h' : c'.isValidChar)
    (he : (⟨[Char.ofNat c]⟩ : String) = ⟨[Char.ofNat c']⟩) : c = c' := by
  have h2 : [Char.ofNat c] = [Char.ofNat c'] := congrArg String.data he
  injection h2 with h3 _
  exact charOfNat_inj c c' h h' h3

/-- The name counter keeps the renaming map's values distinct single scalars
throughout the run. -/
theorem compressLoop_mapok (defs : List (Declaration × Definition)) :
    ∀ (fuel : Nat) (stack : List Declaration) (m : List (String × String))
      (code : Nat) (mf : List (String × String)),
      compressLoop defs fuel stack m code = .ok mf → MapOK m code →
      ∃ code2, MapOK mf code2 := by
  intro fuel
  induction fuel with
  | zero =>
    intro stack m code mf h _
    simp [compressLoop] at h
  | succ fuel ih =>
    intro stack m code mf h hok
    rw [compressLoop_succ] at h
    cases stack with
    | nil =>
      simp only [compressStepF] at h
      injection h with h
      subst h
      exact ⟨code, hok⟩
    | cons old rest =>
      simp only [compressStepF] at h
      split at h
      next hprim => exact ih rest m code mf h hok
      next hprim =>
        split at h
        next v hm => exact ih rest m code mf h hok
        next hm =>
          split at h
          next hnn => exact Except.noConfusion h
          next nn code' hnn =>
            obtain ⟨c, hc1, hc2, hc3, hc4, hc5⟩ :=
              nextNameAux_spec nextNameGas code nn code' hnn
            have hconsNe : ∀ k, old ≠ k →
                alookup ((old, nn) :: m) k = alookup m k := by
              intro k hk
              simp [alookup, hk]
            have hok' : MapOK ((old, nn) :: m) code' := by
              obtain ⟨hvals, hinj⟩ := hok
              constructor
              · intro k v hv
                by_cases hk : old = k
                · subst hk
                  rw [show alookup ((old, nn) :: m) old = some nn from by
                    simp [alookup]] at hv
                  injection hv with hv
                  exact ⟨c, hc2, hc3, by rw [← hv, hc4]⟩
                · rw [hconsNe k hk] at hv
                  obtain ⟨c0, hc01, hc02, hc03⟩ := hvals k v hv
                  exact ⟨c0, by omega, hc02, hc03⟩
              · intro k1 k2 v h1 h2
                by_cases hk1 : old = k1 <;> by_cases hk2 : old = k2
                · rw [← hk1, ← hk2]
                · exfalso
                  rw [← hk1] at h1
                  rw [show alookup ((old, nn) :: m) old = some nn from by
                    simp [alookup]] at h1
                  injection h1 with h1
                  rw [hconsNe k2 hk2] at h2
                  obtain ⟨c0, hc01, hc02, hc03⟩ := hvals k2 v h2
                  rw [← h1, hc4] at hc03
                  have := singleton_char_inj hc3 hc02 hc03
                  omega
                · exfalso
                  rw [← hk2] at h2
                  rw [show alookup ((old, nn) :: m) old = some nn from by
                    simp [alookup]] at h2
                  injection h2 with h2
                  rw [hconsNe k1 hk1] at h1
                  obtain ⟨c0, hc01, hc02, hc03⟩ := hvals k1 v h1
                  rw [← h2, hc4] at hc03
                  have := singleton_char_inj hc3 hc02 hc03
                  omega
                · rw [hconsNe k1 hk1] at h1
                  rw [hconsNe k2 hk2] at h2
                  exact hinj k1 k2 v h1 h2
            split at h
            next hdefs => exact ih rest ((old, nn) :: m) code' mf h hok'
            next defn0 hdefs =>
              exact ih (pushInner defn0 rest) ((old, nn) :: m) code' mf h hok'

/-- Values of a well-formed renaming map are single characters, hence never
one of the twelve primitive names. -/
theorem mapok_vals_nonprim {m : List (String × String)} {code : Nat}
    (h : MapOK m code) :
    ∀ k v, alookup m k = some v → isPrim12 v = false := by
  intro k v hv
  obtain ⟨c, _, _, hveq⟩ := h.1 k v hv
  rw [hveq]
  exact isPrim12_singleton _

theorem allCorrect_ainsert (oldDefs : List (Declaration × Definition))
    (m : List (String × String)) (nd : List (Declaration × Definition))
    (hac : AllCorrect oldDefs m nd) (cur : Declaration) (nn : String)
    (defn : Definition) (hm : alookup m cur = some nn)
    (ho : alookup oldDefs cur = some defn) :
    AllCorrect oldDefs m (ainsert nd nn (renameDef (applyM m) defn)) := by
  intro k v hv
  by_cases hk : nn = k
  · subst hk
    rw [alookup_ainsert_self] at hv
    injection hv with hv
    exact ⟨cur, defn, hm, ho, hv.symm⟩
  · rw [alookup_ainsert_ne _ _ _ _ hk] at hv
    exact hac k v hv

/-- `add_definitions_rec` preserves correctness of the accumulated map and
never loses an entry: re-insertions always write the same value, because the
renaming is injective. -/
theorem addRec_correct (oldDefs : List (Declaration × Definition))
    (m : List (String × String)) (hinj : MapInj m) :
    ∀ (fuel : Nat) (nd : List (Declaration × Definition)) (cur : Declaration)
      (nf : List (Declaration × Definition)),
      add_definitions_rec oldDefs m fuel nd cur = .ok nf →
      AllCorrect oldDefs m nd →
      AllCorrect oldDefs m nf ∧
        (∀ k v, alookup nd k = some v → alookup nf k = some v) := by
  intro fuel
  induction fuel with
  | zero =>
    intro nd cur nf h _
    simp [add_definitions_rec] at h
  | succ fuel ih =>
    have ihl : ∀ (l : List Declaration) (nd nf : List (Declaration × Definition)),
        addDefsListF (add_definitions_rec oldDefs m fuel) nd l = .ok nf →
        AllCorrect oldDefs m nd →
        AllCorrect oldDefs m nf ∧
          (∀ k v, alookup nd k = some v → alookup nf k = some v) := by
      intro l
      induction l with
      | nil =>
        intro nd nf h hac
        simp only [addDefsListF] at h
        injection h with h
        subst h
        exact ⟨hac, fun _ _ hv => hv⟩
      | cons j rest ihr =>
        intro nd nf h hac
        simp only [addDefsListF] at h
        split at h
        next heq => exact Except.noConfusion h
        next nd2 heq =>
          obtain ⟨hac2, hmono2⟩ := ih nd j nd2 heq hac
          obtain ⟨hac3, hmono3⟩ := ihr nd2 nf h hac2
          exact ⟨hac3, fun k v hv => hmono3 k v (hmono2 k v hv)⟩
    intro nd cur nf h hac
    rw [addRec_succ] at h
    simp only [addDefsStepF] at h
    split at h
    next newName od hm ho =>
      have hacIns := allCorrect_ainsert oldDefs m nd hac cur newName od hm ho
      obtain ⟨hac3, hmono3⟩ := ihl (innerDecls od) _ nf h hacIns
      refine ⟨hac3, ?_⟩
      intro k v hv
      apply hmono3
      by_cases hk : newName = k
      · subst hk
        rw [alookup_ainsert_self]
        obtain ⟨d, defn, hd1, hd2, hd3⟩ := hac _ _ hv
        have hdc : d = cur := hinj d cur _ hd1 hm
        subst hdc
        rw [ho] at hd2
        injection hd2 with hd2
        subst hd2
        rw [hd3]
      · rw [alookup_ainsert_ne _ _ _ _ hk]
        exact hv
    next hno =>
      injection h with h
      subst h
      exact ⟨hac, fun _ _ hv => hv⟩

/-- Monotone-correct extension along the child-list fold. -/
theorem addDefsListF_mono (oldDefs : List (Declaration × Definition))
    (m : List (String × String)) (hinj : MapInj m) (fuel : Nat) :
    ∀ (l : List Declaration) (nd nf : List (Declaration × Definition)),
      addDefsListF (add_definitions_rec oldDefs m fuel) nd l = .ok nf →
      AllCorrect oldDefs m nd →
      AllCorrect oldDefs m nf ∧
        (∀ k v, alookup nd k = some v → alookup nf k = some v) := by
  intro l
  induction l with
  | nil =>
    intro nd nf h hac
    simp only [addDefsListF] at h
    injection h with h
    subst h
    exact ⟨hac, fun _ _ hv => hv⟩
  | cons j rest ihr =>
    intro nd nf h hac
    simp only [addDefsListF] at h
    split at h
    next heq => exact Except.noConfusion h
    next nd2 heq =>
      obtain ⟨hac2, hmono2⟩ := addRec_correct oldDefs m hinj fuel nd j nd2 heq hac
      obtain ⟨hac3, hmono3⟩ := ihr nd2 nf h hac2
      exact ⟨hac3, fun k v hv => hmono3 k v (hmono2 k v hv)⟩

/-- Every declaration reachable from the starting point that is both renamed
and defined ends up, after `add_definitions_rec`, present in the new
definitions map under its new name with its correctly renamed definition. -/
theorem addRec_reach (oldDefs : List (Declaration × Definition))
    (m : List (String × String)) (hinj : MapInj m) :
    ∀ (fuel : Nat) (nd : List (Declaration × Definition)) (cur : Declaration)
      (nf : List (Declaration × Definition)),
      add_definitions_rec oldDefs m fuel nd cur = .ok nf →
      AllCorrect oldDefs m nd →
      ∀ d, ReachA oldDefs m cur d →
        ∀ nn defn, alookup m d = some nn → alookup oldDefs d = some defn →
          alookup nf nn = some (renameDef (applyM m) defn) := by
  intro fuel
  induction fuel with
  | zero =>
    intro nd cur nf h
    simp [add_definitions_rec] at h
  | succ fuel ih =>
    have ihl : ∀ (l : List Declaration) (nd nf : List (Declaration × Definition)),
        addDefsListF (add_definitions_rec oldDefs m fuel) nd l = .ok nf →
        AllCorrect oldDefs m nd →
        ∀ i, i ∈ l → ∀ d, ReachA oldDefs m i d →
          ∀ nn defn, alookup m d = some nn → alookup oldDefs d = some defn →
            alookup nf nn = some (renameDef (applyM m) defn) := by
      intro l
      induction l with
      | nil =>
        intro nd nf h hac i hi
        simp at hi
      | cons j rest ihr =>
        intro nd nf h hac i hi d hreach nn defn hdn hdd
        simp only [addDefsListF] at h
        split at h
        next heq => exact Except.noConfusion h
        next nd2 heq =>
          have hac2 : AllCorrect oldDefs m nd2 :=
            (addRec_correct oldDefs m hinj fuel nd j nd2 heq hac).1
          rcases List.mem_cons.mp hi with rfl | hi2
          · have hgot := ih nd i nd2 heq hac d hreach nn defn hdn hdd
            exact (addDefsListF_mono oldDefs m hinj fuel rest nd2 nf h hac2).2
              nn _ hgot
          · exact ihr nd2 nf h hac2 i hi2 d hreach nn defn hdn hdd
    intro nd cur nf h hac d hreach nn defn hdn hdd
    rw [addRec_succ] at h
    simp only [addDefsStepF] at h
    cases hreach with
    | refl =>
      split at h
      next newName od hm ho =>
        rw [hdn] at hm
        injection hm with hm
        subst hm
        rw [hdd] at ho
        injection ho with ho
        subst ho
        have hacIns := allCorrect_ainsert oldDefs m nd hac cur nn defn hdn hdd
        have hres := addDefsListF_mono oldDefs m hinj fuel (innerDecls defn)
          _ nf h hacIns
        exact hres.2 nn _ (alookup_ainsert_self _ _ _)
      next hno => exact (hno nn defn hdn hdd).elim
    | step cX i dX nnS defnS hmS hoS hiS hrS =>
      split at h
      next newName od hm ho =>
        rw [hmS] at hm
        injection hm with hm
        subst hm
        rw [hoS] at ho
        injection ho with ho
        subst ho
        have hacIns := allCorrect_ainsert oldDefs m nd hac cur nnS defnS hmS hoS
        exact ihl (innerDecls defnS) _ nf h hacIns i hiS d hrS nn defn hdn hdd
      next hno => exact (hno nnS defnS hmS hoS).elim

theorem emapErr_map {α β : Type} (f : DErr → DErr) (w : α → β)
    (x : Except DErr α) : (emapErr f x).map w = emapErr f (x.map w) := by
  cases x <;> rfl

/-- The twelve primitive decode arms never produce the `todo!` outcome, so
renaming unknown-declaration names leaves their results untouched. -/
theorem decodePrim_emap (rho : String → String) (d : Declaration)
    (bs : List Nat) (hp : isPrim12 d = true) :
    emapErr (renameDErr rho) (decodePrim d bs) = decodePrim d bs := by
  rcases isPrim12_cases hp with rfl|rfl|rfl|rfl|rfl|rfl|rfl|rfl|rfl|rfl|rfl|rfl
  · cases h : readUIntLe 1 bs <;> simp [decodePrim, h, emapErr, renameDErr]
  · cases h : readUIntLe 2 bs <;> simp [decodePrim, h, emapErr, renameDErr]
  · cases h : readUIntLe 4 bs <;> simp [decodePrim, h, emapErr, renameDErr]
  · cases h : readUIntLe 8 bs <;> simp [decodePrim, h, emapErr, renameDErr]
  · cases h : readUIntLe 16 bs <;> simp [decodePrim, h, emapErr, renameDErr]
  · cases h : readUIntLe 1 bs <;> simp [decodePrim, h, emapErr, renameDErr]
  · cases h : readUIntLe 2 bs <;> simp [decodePrim, h, emapErr, renameDErr]
  · cases h : readUIntLe 4 bs <;> simp [decodePrim, h, emapErr, renameDErr]
  · cases h : readUIntLe 8 bs <;> simp [decodePrim, h, emapErr, renameDErr]
  · cases h : readUIntLe 16 bs <;> simp [decodePrim, h, emapErr, renameDErr]
  · cases h : readUIntLe 4 bs with
    | none => simp [decodePrim, h, emapErr, renameDErr]
    | some p =>
      obtain ⟨len, bs1⟩ := p
      cases h2 : readN len bs1 with
      | none => simp [decodePrim, h, h2, emapErr, renameDErr]
      | some q =>
        obtain ⟨body, rest⟩ := q
        cases h3 : utf8Decode body <;>
          simp [decodePrim, h, h2, h3, emapErr, renameDErr]
  · cases h : readN 1 bs with
    | none => simp [decodePrim, h, emapErr, renameDErr]
    | some p =>
      obtain ⟨b, rest⟩ := p
      by_cases hb0 : b = [0]
      · simp [decodePrim, h, hb0, emapErr, renameDErr]
      · by_cases hb1 : b = [1] <;>
          simp [decodePrim, h, hb0, hb1, emapErr, renameDErr]

theorem decodeManyF_congr (f : DErr → DErr)
    (dec dec' : List Nat → Except DErr (Json × List Nat))
    (h : ∀ bs, dec' bs = emapErr f (dec bs)) :
    ∀ (n : Nat) (bs : List Nat),
      decodeManyF dec' n bs = emapErr f (decodeManyF dec n bs) := by
  intro n
  induction n with
  | zero => intro bs; rfl
  | succ n ihn =>
    intro bs
    simp only [decodeManyF]
    rw [h bs]
    cases dec bs with
    | error e => rfl
    | ok p =>
      obtain ⟨v, bs1⟩ := p
      simp only [emapErr]
      rw [ihn bs1]
      cases decodeManyF dec n bs1 with
      | error e => rfl
      | ok q => rfl

theorem decodeListF_congr (f : DErr → DErr) (rho : Declaration → Declaration)
    (dec dec' : Declaration → List Nat → Except DErr (Json × List Nat)) :
    ∀ (els : List Declaration),
      (∀ el, el ∈ els → ∀ bs, dec' (rho el) bs = emapErr f (dec el bs)) →
      ∀ bs, decodeListF dec' (els.map rho) bs =
        emapErr f (decodeListF dec els bs) := by
  intro els
  induction els with
  | nil => intro _ bs; rfl
  | cons el els ihe =>
    intro h bs
    simp only [List.map, decodeListF]
    rw [h el (List.mem_cons_self el els) bs]
    cases dec el bs with
    | error e => rfl
    | ok p =>
      obtain ⟨v, bs1⟩ := p
      simp only [emapErr]
      rw [ihe (fun x hx bs2 => h x (List.mem_cons_of_mem el hx) bs2) bs1]
      cases decodeListF dec els bs1 with
      | error e => rfl
      | ok q => rfl

theorem decodeNamedF_congr (f : DErr → DErr) (rho : Declaration → Declaration)
    (dec dec' : Declaration → List Nat → Except DErr (Json × List Nat)) :
    ∀ (nfs : List (String × Declaration)),
      (∀ p, p ∈ nfs → ∀ bs, dec' (rho p.2) bs = emapErr f (dec p.2 bs)) →
      ∀ bs, decodeNamedF dec' (nfs.map (fun p => (p.1, rho p.2))) bs =
        emapErr f (decodeNamedF dec nfs bs) := by
  intro nfs
  induction nfs with
  | nil => intro _ bs; rfl
  | cons p nfs ihp =>
    intro h bs
    obtain ⟨k, vd⟩ := p
    simp only [List.map, decodeNamedF]
    rw [h (k, vd) (List.mem_cons_self _ nfs) bs]
    cases dec vd bs with
    | error e => rfl
    | ok q =>
      obtain ⟨v, bs1⟩ := q
      simp only [emapErr]
      rw [ihp (fun x hx bs2 => h x (List.mem_cons_of_mem _ hx) bs2) bs1]
      cases decodeNamedF dec nfs bs1 with
      | error e => rfl
      | ok r => rfl

theorem decodeDefinition_congr
    (g : List (String × Json) → List (String × Json))
    (rho : Declaration → Declaration)
    (dec dec' : Declaration → List Nat → Except DErr (Json × List Nat))
    (defn : Definition)
    (h : ∀ i, i ∈ innerDecls defn → ∀ bs,
      dec' (rho i) bs = emapErr (renameDErr rho) (dec i bs)) :
    ∀ bs, decodeDefinition g dec' (renameDef rho defn) bs =
      emapErr (renameDErr rho) (decodeDefinition g dec defn bs) := by
  intro bs
  cases defn with
  | array len el =>
    simp only [renameDef, decodeDefinition]
    rw [decodeManyF_congr (renameDErr rho) (dec el) (dec' (rho el))
      (fun bs2 => h el (by simp [innerDecls]) bs2) len bs]
    exact emapErr_map _ _ _
  | sequence el =>
    simp only [renameDef, decodeDefinition]
    cases hr : readUIntLe 4 bs with
    | none => rfl
    | some p =>
      obtain ⟨len, bs1⟩ := p
      dsimp only
      rw [decodeManyF_congr (renameDErr rho) (dec el) (dec' (rho el))
        (fun bs2 => h el (by simp [innerDecls]) bs2) len bs1]
      exact emapErr_map _ _ _
  | tuple els =>
    simp only [renameDef, decodeDefinition]
    rw [decodeListF_congr (renameDErr rho) rho dec dec' els
      (fun el hel bs2 => h el (by simp [innerDecls]; exact hel) bs2) bs]
    exact emapErr_map _ _ _
  | enum vs =>
    simp only [renameDef, decodeDefinition]
    cases hr : readUIntLe 1 bs with
    | none => rfl
    | some p =>
      obtain ⟨idx, bs1⟩ := p
      dsimp only
      rw [List.getElem?_map]
      cases hv : vs[idx]? with
      | none => rfl
      | some q =>
        obtain ⟨name, vd⟩ := q
        simp only [Option.map]
        have hmem : vd ∈ innerDecls (.enum vs) := by
          simp only [innerDecls]
          exact List.mem_map_of_mem (fun p => p.2) (List.getElem?_mem hv)
        rw [h vd hmem bs1]
        exact emapErr_map _ _ _
  | struct fs =>
    cases fs with
    | namedFields nfs =>
      simp only [renameDef, decodeDefinition]
      rw [decodeNamedF_congr (renameDErr rho) rho dec dec' nfs
        (fun p hp bs2 => h p.2
          (by simp only [innerDecls]; exact List.mem_map_of_mem (fun q => q.2) hp)
          bs2) bs]
      exact emapErr_map _ _ _
    | unnamedFields els =>
      simp only [renameDef, decodeDefinition]
      rw [decodeListF_congr (renameDErr rho) rho dec dec' els
        (fun el hel bs2 => h el (by simp [innerDecls]; exact hel) bs2) bs]
      exact emapErr_map _ _ _
    | empty => rfl

/-- Lock-step equivalence of the decoder on a schema and on its compressed
image: along every declaration that is primitive or renamed-and-reachable,
the two decoders agree on success values and remaining input, and fail with
the same failure up to renaming the declaration named by a `todo!` panic. -/
theorem decode_equiv_aux
    (g : List (String × Json) → List (String × Json))
    (S S' : BorshSchemaContainer) (mf : List (String × String))
    (hF1 : ∀ p, isPrim12 p = true → alookup mf p = none)
    (hF2 : ∀ k v, alookup mf k = some v → isPrim12 v = false)
    (hF3 : ∀ d nn defn, alookup mf d = some nn →
      alookup S.definitions d = some defn →
      ReachA S.definitions mf S.declaration d →
      alookup S'.definitions nn = some (renameDef (applyM mf) defn))
    (hF4 : ∀ d nn, alookup mf d = some nn → alookup S.definitions d = none →
      alookup S'.definitions nn = none)
    (hF5 : ∀ d defn, (alookup mf d).isSome →
      alookup S.definitions d = some defn →
      ∀ i, i ∈ innerDecls defn →
        isPrim12 i = true ∨ (alookup mf i).isSome) :
    ∀ (fuel : Nat) (d : Declaration) (bs : List Nat),
      (isPrim12 d = true ∨
        ((alookup mf d).isSome ∧ ReachA S.definitions mf S.declaration d)) →
      deserialize_declaration_from_schema g S' fuel (applyM mf d) bs =
        emapErr (renameDErr (applyM mf))
          (deserialize_declaration_from_schema g S fuel d bs) := by
  intro fuel
  induction fuel with
  | zero =>
    intro d bs hGood
    rcases hGood with hp | ⟨hsome, hreach⟩
    · have hrho : applyM mf d = d := by simp [applyM, hF1 d hp]
      rw [hrho, deser_zero, deser_zero, deserStep_prim _ _ _ _ _ hp,
        deserStep_prim _ _ _ _ _ hp]
      exact (decodePrim_emap (applyM mf) d bs hp).symm
    · obtain ⟨nn, hnn⟩ := Option.isSome_iff_exists.mp hsome
      have hrho : applyM mf d = nn := by simp [applyM, hnn]
      have hpd : isPrim12 d = false := by
        cases hq : isPrim12 d with
        | false => rfl
        | true => rw [hF1 d hq] at hnn; cases hnn
      have hpnn : isPrim12 nn = false := hF2 d nn hnn
      cases hdef : alookup S.definitions d with
      | none =>
        rw [hrho, deser_zero, deser_zero,
          deserStep_user_none _ _ _ _ _ hpnn (hF4 d nn hnn hdef),
          deserStep_user_none _ _ _ _ _ hpd hdef]
        simp [emapErr, renameDErr, applyM, hnn]
      | some defn =>
        rw [hrho, deser_zero, deser_zero,
          deserStep_user_fuelout _ _ _ _ _ hpnn (hF3 d nn defn hnn hdef hreach),
          deserStep_user_fuelout _ _ _ _ _ hpd hdef]
        rfl
  | succ fuel ih =>
    intro d bs hGood
    rcases hGood with hp | ⟨hsome, hreach⟩
    · have hrho : applyM mf d = d := by simp [applyM, hF1 d hp]
      rw [hrho, deser_succ, deser_succ, deserStep_prim _ _ _ _ _ hp,
        deserStep_prim _ _ _ _ _ hp]
      exact (decodePrim_emap (applyM mf) d bs hp).symm
    · obtain ⟨nn, hnn⟩ := Option.isSome_iff_exists.mp hsome
      have hrho : applyM mf d = nn := by simp [applyM, hnn]
      have hpd : isPrim12 d = false := by
        cases hq : isPrim12 d with
        | false => rfl
        | true => rw [hF1 d hq] at hnn; cases hnn
      have hpnn : isPrim12 nn = false := hF2 d nn hnn
      cases hdef : alookup S.definitions d with
      | none =>
        rw [hrho, deser_succ, deser_succ,
          deserStep_user_none _ _ _ _ _ hpnn (hF4 d nn hnn hdef),
          deserStep_user_none _ _ _ _ _ hpd hdef]
        simp [emapErr, renameDErr, applyM, hnn]
      | some defn =>
        rw [hrho, deser_succ, deser_succ,
          deserStep_user_some _ _ _ _ _ _ hpnn (hF3 d nn defn hnn hdef hreach),
          deserStep_user_some _ _ _ _ _ _ hpd hdef]
        apply decodeDefinition_congr
        intro i hi bs2
        have hGoodI : isPrim12 i = true ∨
            ((alookup mf i).isSome ∧
              ReachA S.definitions mf S.declaration i) := by
          rcases hF5 d defn hsome hdef i hi with h | h
          · exact Or.inl h
          · exact Or.inr ⟨h, reachA_snoc hreach nn defn hnn hdef i hi⟩
        have := ih i bs2 hGoodI
        rwa [show applyM mf i = applyM mf i from rfl] at this

/-- Claim C1 counterexample.  The claim says every primitive declaration —
the spec's fixed set includes `f32`/`f64` — passes through compression
unchanged.  The compressor's skip list has only twelve entries: in a schema
referencing `f32`, the reference is renamed to the fresh one-character name
`"\x01"`, and the decoders fail with `todo!` panics naming different
declarations (`f32` before, `"\x01"` after), not the same failure. -/
theorem claim_C1_counterexample :
    compress_schema 20 ⟨"A", [("A", .sequence "f32")]⟩ =
      .ok ⟨"\x00", [("\x00", .sequence "\x01")]⟩ ∧
    ("\x01" : String) ≠ "f32" ∧
    deserialize_declaration_from_schema id ⟨"A", [("A", .sequence "f32")]⟩ 5
      "A" [1, 0, 0, 0, 0, 0, 0, 0] = .error (.todoUnknown "f32") ∧
    deserialize_declaration_from_schema id
      ⟨"\x00", [("\x00", .sequence "\x01")]⟩ 5 "\x00"
      [1, 0, 0, 0, 0, 0, 0, 0] = .error (.todoUnknown "\x01") ∧
    DErr.todoUnknown "\x01" ≠ DErr.todoUnknown "f32" :=
  ⟨rfl, by decide, rfl, rfl, by decide⟩

/-- Claim C1 as amended: whenever `compress_schema` terminates successfully
(user-declaration root, no renaming-loop divergence), (a) the twelve
skip-listed primitives pass through the renaming untouched (`f32`/`f64` do
not: they are renamed like user declarations, see the counterexample), and
(b) decoding any byte sequence under the compressed schema equals decoding it
under the original schema — identical JSON values and remaining input on
success, and identical failures except that the declaration named by an
unknown-declaration `todo!` panic is reported under its renamed name. -/
theorem claim_C1_compress_preserves_decoding :
    ∀ (S : BorshSchemaContainer) (cfuel : Nat) (mf : List (String × String))
      (S' : BorshSchemaContainer),
      compressLoop S.definitions cfuel [S.declaration] [] 0 = .ok mf →
      compress_schema cfuel S = .ok S' →
      (∀ p, isPrim12 p = true → applyM mf p = p) ∧
      S'.declaration = applyM mf S.declaration ∧
      (∀ (g : List (String × Json) → List (String × Json)) (fuel : Nat)
        (bs : List Nat),
        deserialize_declaration_from_schema g S' fuel S'.declaration bs =
          emapErr (renameDErr (applyM mf))
            (deserialize_declaration_from_schema g S fuel S.declaration bs)) := by
  intro S cfuel mf S' hloop hcomp
  simp only [compress_schema] at hcomp
  rw [hloop] at hcomp
  dsimp only at hcomp
  cases hadd : add_definitions_rec S.definitions mf cfuel [] S.declaration with
  | error e => rw [hadd] at hcomp; simp at hcomp
  | ok nd =>
    rw [hadd] at hcomp
    dsimp only at hcomp
    cases hroot : alookup mf S.declaration with
    | none => rw [hroot] at hcomp; simp at hcomp
    | some newRoot =>
      rw [hroot] at hcomp
      dsimp only at hcomp
      injection hcomp with hS'
      subst hS'
      obtain ⟨hmono, hstack, hclosure, hprimnone⟩ :=
        compressLoop_facts S.definitions cfuel [S.declaration] [] 0 mf hloop
      have hok0 : MapOK ([] : List (String × String)) 0 :=
        ⟨fun k v hv => by simp [alookup] at hv,
         fun k1 k2 v h1 h2 => by simp [alookup] at h1⟩
      obtain ⟨code2, hmapok⟩ :=
        compressLoop_mapok S.definitions cfuel [S.declaration] [] 0 mf hloop hok0
      have hinj : MapInj mf := hmapok.2
      have hF1 : ∀ p, isPrim12 p = true → alookup mf p = none :=
        fun p hp => hprimnone p hp rfl
      have hF2 := mapok_vals_nonprim hmapok
      have hac0 : AllCorrect S.definitions mf [] :=
        fun k v hv => by simp [alookup] at hv
      have hF3 : ∀ d nn defn, alookup mf d = some nn →
          alookup S.definitions d = some defn →
          ReachA S.definitions mf S.declaration d →
          alookup nd nn = some (renameDef (applyM mf) defn) :=
        fun d nn defn h1 h2 hre =>
          addRec_reach S.definitions mf hinj cfuel [] S.declaration nd hadd
            hac0 d hre nn defn h1 h2
      have hACnf : AllCorrect S.definitions mf nd :=
        (addRec_correct S.definitions mf hinj cfuel [] S.declaration nd hadd
          hac0).1
      have hF4 : ∀ d nn, alookup mf d = some nn →
          alookup S.definitions d = none → alookup nd nn = none := by
        intro d nn h1 h2
        cases hq : alookup nd nn with
        | none => rfl
        | some v =>
          obtain ⟨d2, defn2, hd1, hd2, _⟩ := hACnf nn v hq
          have hd2d : d2 = d := hinj d2 d nn hd1 h1
          rw [hd2d, h2] at hd2
          cases hd2
      have hF5 : ∀ d defn, (alookup mf d).isSome →
          alookup S.definitions d = some defn →
          ∀ i, i ∈ innerDecls defn →
            isPrim12 i = true ∨ (alookup mf i).isSome :=
        fun d defn hds hdd i hi => hclosure d rfl hds defn hdd i hi
      refine ⟨?_, ?_, ?_⟩
      · intro p hp
        simp [applyM, hF1 p hp]
      · simp [applyM, hroot]
      · intro g fuel bs
        have hGood : isPrim12 S.declaration = true ∨
            ((alookup mf S.declaration).isSome ∧
              ReachA S.definitions mf S.declaration S.declaration) :=
          Or.inr ⟨by rw [hroot]; rfl, ReachA.refl _⟩
        have hq := decode_equiv_aux g S ⟨newRoot, nd⟩ mf hF1 hF2 hF3 hF4 hF5
          fuel S.declaration bs hGood
        rw [show applyM mf S.declaration = newRoot from by
          simp [applyM, hroot]] at hq
        exact hq

/-- Claim C1 witness: the amended statement applied to a concrete schema
`{A ↦ Sequence u8}` (compressed to `{"\x00" ↦ Sequence u8}`), where both
sides decode `02 00 00 00 07 09` to the JSON array `[7, 9]`. -/
theorem claim_C1_compress_preserves_decoding_witness :
    deserialize_declaration_from_schema id
        ⟨"\x00", [("\x00", .sequence "u8")]⟩ 3 "\x00" [2, 0, 0, 0, 7, 9] =
      emapErr (renameDErr (applyM [("A", "\x00")]))
        (deserialize_declaration_from_schema id
          ⟨"A", [("A", .sequence "u8")]⟩ 3 "A" [2, 0, 0, 0, 7, 9]) :=
  (claim_C1_compress_preserves_decoding ⟨"A", [("A", .sequence "u8")]⟩ 20
    [("A", "\x00")] ⟨"\x00", [("\x00", .sequence "u8")]⟩ rfl rfl).2.2 id 3
    [2, 0, 0, 0, 7, 9]

end BorshCli
